import Mathlib

/-!
Verification of the compliance-check service's core against its specification.

The embedding models, from the source:
  * `app/utils/utils.py` — `response_parser` (and the fragment of Python's
    `json.loads` / `json.dumps` it composes with);
  * `app/core/rate_limiter.py` — token estimation and the dynamic
    safe-concurrency computation;
  * `app/core/retry_handler.py` — the retry/backoff wrapper;
  * `app/rules/base.py` — the rule executor's result-to-column mapping;
  * `app/api/routes.py` — per-rule error capture, per-record aggregation,
    null-collapse and job totals;
  * `app/core/prompt_cache.py` — the TTL'd prompt cache with its
    negative sentinel, single get and batch load.

Machine integers are `Nat`/`Int`; wall-clock instants and float-valued
configuration are `ℚ`; Python dictionaries are association lists; a Python
function that can raise returns `Option`/`Except`.
-/

namespace AiCompliance

/-! ## Python JSON values

`app/utils/utils.py` parses model output with Python's `json` module. The
embedding restricts JSON numerals to integers (the service's payloads hold
strings, lists, objects and integer token counts; IEEE floats stay outside the
model). Strings are kept as character lists so that parser/printer proofs
avoid `String` coercions. -/

inductive PyJson where
  | null : PyJson
  | bool (b : Bool) : PyJson
  | num (n : Int) : PyJson
  | str (s : List Char) : PyJson
  | arr (xs : List PyJson) : PyJson
  | obj (kvs : List (List Char × PyJson)) : PyJson

instance : Inhabited PyJson := ⟨.null⟩

/-- Python truthiness of a JSON value (`if violations:` in the executor):
`None`, `False`, `0`, the empty string, list and dict are falsy. -/
def pyTruthy : PyJson → Bool
  | .null => false
  | .bool b => b
  | .num n => !(n == 0)
  | .str s => !s.isEmpty
  | .arr xs => !xs.isEmpty
  | .obj kvs => !kvs.isEmpty

/-- The ASCII whitespace Python's `str.strip` and the `re` class `\s` share;
the service's strings stay in ASCII so the unicode extras are immaterial. -/
def pyIsSpace (c : Char) : Bool :=
  c == ' ' || c == '\t' || c == '\n' || c == '\r' || c == Char.ofNat 11 || c == Char.ofNat 12

/-- Python `str.strip()` on a character list. -/
def pyStrip (cs : List Char) : List Char :=
  ((cs.dropWhile pyIsSpace).reverse.dropWhile pyIsSpace).reverse

def isDigitC (c : Char) : Bool := '0' ≤ c && c ≤ '9'

/-- Python `str.upper()` on the ASCII identifiers the service uses. -/
def pyUpper (s : String) : String := String.mk (s.data.map Char.toUpper)

/-! ## A model of `json.loads`

Fuel-indexed recursive descent over character lists. Faithful to `json.loads`
on the fragment the service exercises: ints (no floats — a numeral carrying a
fraction or exponent is rejected by the model), strings with the standard
escapes and `\uXXXX`, arrays, objects, literals, and interleaved whitespace. -/

def skipWs : List Char → List Char
  | c :: cs => if pyIsSpace c then skipWs cs else c :: cs
  | [] => []

def takeDigits : List Char → List Char × List Char
  | c :: cs =>
    if isDigitC c then
      let p := takeDigits cs
      (c :: p.1, p.2)
    else ([], c :: cs)
  | [] => ([], [])

def digitsVal (ds : List Char) : Nat :=
  ds.foldl (fun a c => a * 10 + (c.toNat - '0'.toNat)) 0

/-- Parse an integer numeral. A following `.`, `e` or `E` means the source text
is a float, which the model does not cover, so it is rejected. -/
def pNum (cs : List Char) : Option (Int × List Char) :=
  match cs with
  | '-' :: rest =>
    match pNumNat rest with
    | some (n, r) => some (-(n : Int), r)
    | none => none
  | _ =>
    match pNumNat cs with
    | some (n, r) => some ((n : Int), r)
    | none => none
where
  pNumNat (cs : List Char) : Option (Nat × List Char) :=
    let p := takeDigits cs
    if p.1.isEmpty then none
    else
      match p.2 with
      | c :: _ => if c == '.' || c == 'e' || c == 'E' then none else some (digitsVal p.1, p.2)
      | [] => some (digitsVal p.1, [])

/-- The value of one hex digit (48, 87 and 55 are the offsets of `'0'`,
`'a' - 10` and `'A' - 10`). -/
def hexDigitVal (c : Char) : Option Nat :=
  if isDigitC c then some (c.toNat - 48)
  else if 'a' ≤ c && c ≤ 'f' then some (c.toNat - 87)
  else if 'A' ≤ c && c ≤ 'F' then some (c.toNat - 55)
  else none

/-- The table of single-character escapes `json.loads` accepts. -/
def unescapeChar (e : Char) : Option Char :=
  if e == '"' || e == '\\' || e == '/' then some e
  else if e == 'n' then some '\n'
  else if e == 'r' then some '\r'
  else if e == 't' then some '\t'
  else if e == 'b' then some (Char.ofNat 8)
  else if e == 'f' then some (Char.ofNat 12)
  else none

/-- Body of a JSON string after the opening quote; `acc` holds the decoded
characters in reverse. -/
def pStrBody (acc : List Char) : List Char → Option (List Char × List Char)
  | '"' :: rest => some (acc.reverse, rest)
  | '\\' :: 'u' :: a :: b :: c :: d :: rest =>
    match hexDigitVal a, hexDigitVal b, hexDigitVal c, hexDigitVal d with
    | some va, some vb, some vc, some vd =>
      pStrBody (Char.ofNat (((va * 16 + vb) * 16 + vc) * 16 + vd) :: acc) rest
    | _, _, _, _ => none
  | '\\' :: e :: rest =>
    match unescapeChar e with
    | some ch => pStrBody (ch :: acc) rest
    | none => none
  | [c] => if c == '\\' then none else pStrBody (c :: acc) []
  | c :: rest => pStrBody (c :: acc) rest
  | [] => none

mutual

def pVal : Nat → List Char → Option (PyJson × List Char)
  | 0, _ => none
  | fuel + 1, cs =>
    match skipWs cs with
    | 'n' :: 'u' :: 'l' :: 'l' :: r => some (.null, r)
    | 't' :: 'r' :: 'u' :: 'e' :: r => some (.bool true, r)
    | 'f' :: 'a' :: 'l' :: 's' :: 'e' :: r => some (.bool false, r)
    | '"' :: r =>
      match pStrBody [] r with
      | some (s, r') => some (.str s, r')
      | none => none
    | '[' :: r =>
      match skipWs r with
      | ']' :: r' => some (.arr [], r')
      | cs' =>
        match pElems fuel cs' with
        | some (xs, r') => some (.arr xs, r')
        | none => none
    | '{' :: r =>
      match skipWs r with
      | '}' :: r' => some (.obj [], r')
      | cs' =>
        match pMembers fuel cs' with
        | some (kvs, r') => some (.obj kvs, r')
        | none => none
    | c :: rest =>
      if c == '-' || isDigitC c then
        match pNum (c :: rest) with
        | some (n, r') => some (.num n, r')
        | none => none
      else none
    | [] => none

def pElems : Nat → List Char → Option (List PyJson × List Char)
  | 0, _ => none
  | fuel + 1, cs =>
    match pVal fuel cs with
    | some (v, r) =>
      match skipWs r with
      | ',' :: r' =>
        match pElems fuel r' with
        | some (vs, r'') => some (v :: vs, r'')
        | none => none
      | ']' :: r' => some ([v], r')
      | _ => none
    | none => none

def pMembers : Nat → List Char → Option (List (List Char × PyJson) × List Char)
  | 0, _ => none
  | fuel + 1, cs =>
    match skipWs cs with
    | '"' :: r =>
      match pStrBody [] r with
      | some (k, r1) =>
        match skipWs r1 with
        | ':' :: r2 =>
          match pVal fuel r2 with
          | some (v, r3) =>
            match skipWs r3 with
            | ',' :: r4 =>
              match pMembers fuel r4 with
              | some (kvs, r5) => some ((k, v) :: kvs, r5)
              | none => none
            | '}' :: r4 => some ([(k, v)], r4)
            | _ => none
          | none => none
        | _ => none
      | none => none
    | _ => none

end

/-- `json.loads` on a character list: one complete value, then only trailing
whitespace. -/
def jsonLoadsL (cs : List Char) : Option PyJson :=
  match pVal (cs.length + 1) cs with
  | some (v, r) => if (skipWs r).isEmpty then some v else none
  | none => none

/-! ## A model of `json.dumps`

Python defaults: item separator `", "`, key separator `": "`, `ensure_ascii`
(every character outside printable ASCII becomes `\uXXXX`, astral characters a
surrogate pair), lowercase hex. -/

def toHexLower (n : Nat) : Char :=
  if n < 10 then Char.ofNat ('0'.toNat + n) else Char.ofNat ('a'.toNat + (n - 10))

def uEscape (n : Nat) : List Char :=
  ['\\', 'u', toHexLower (n / 4096 % 16), toHexLower (n / 256 % 16),
   toHexLower (n / 16 % 16), toHexLower (n % 16)]

def pyEscapeChar (c : Char) : List Char :=
  if c == '"' then ['\\', '"']
  else if c == '\\' then ['\\', '\\']
  else if c == '\n' then ['\\', 'n']
  else if c == '\r' then ['\\', 'r']
  else if c == '\t' then ['\\', 't']
  else if c == Char.ofNat 8 then ['\\', 'b']
  else if c == Char.ofNat 12 then ['\\', 'f']
  else if c.toNat < 0x20 then uEscape c.toNat
  else if c.toNat ≤ 0x7e then [c]
  else if c.toNat < 0x10000 then uEscape c.toNat
  else uEscape (0xd800 + (c.toNat - 0x10000) / 0x400) ++
       uEscape (0xdc00 + (c.toNat - 0x10000) % 0x400)

def dumpsStr (s : List Char) : List Char :=
  '"' :: (s.flatMap pyEscapeChar ++ ['"'])

/-- Decimal digits of `n`, most significant first. -/
def natChars (n : Nat) : List Char :=
  if n < 10 then [Char.ofNat ('0'.toNat + n % 10)]
  else natChars (n / 10) ++ [Char.ofNat ('0'.toNat + n % 10)]
termination_by n
decreasing_by exact Nat.div_lt_self (by omega) (by omega)

def intChars (i : Int) : List Char :=
  if i < 0 then '-' :: natChars i.natAbs else natChars i.natAbs

mutual

def pyJsonDumps : PyJson → List Char
  | .null => "null".data
  | .bool true => "true".data
  | .bool false => "false".data
  | .num n => intChars n
  | .str s => dumpsStr s
  | .arr xs => '[' :: (dumpsElems xs ++ [']'])
  | .obj kvs => '{' :: (dumpsMembers kvs ++ ['}'])

def dumpsElems : List PyJson → List Char
  | [] => []
  | [x] => pyJsonDumps x
  | x :: y :: xs => pyJsonDumps x ++ ',' :: ' ' :: dumpsElems (y :: xs)

def dumpsMembers : List (List Char × PyJson) → List Char
  | [] => []
  | [(k, v)] => dumpsStr k ++ ':' :: ' ' :: pyJsonDumps v
  | (k, v) :: m :: kvs => dumpsStr k ++ ':' :: ' ' :: pyJsonDumps v ++ ',' :: ' ' :: dumpsMembers (m :: kvs)

end

/-! ## `response_parser` (`app/utils/utils.py`)

Stage 1 looks for a fenced block (the regex with an optional `json` tag and
lazy body — the captured group is the text between the first fence pair,
whitespace-stripped); stage 2 scans for the first `{` (then the first `[`) and
repeatedly tries balanced-bracket slices; stage 3 parses the stripped whole
input. A `json.loads` failure inside stage 1 or stage 3 is the caught
exception path of the source, hence `none`. -/

def btick : Char := Char.ofNat 96

def tripleAt : List Char → Bool
  | a :: b :: c :: _ => a == btick && b == btick && c == btick
  | _ => false

/-- Split at the first triple-backtick: `(text before it, text after it)`. -/
def splitAtTriple : List Char → Option (List Char × List Char)
  | [] => none
  | c :: cs =>
    if tripleAt (c :: cs) then some ([], (c :: cs).drop 3)
    else
      match splitAtTriple cs with
      | some (before, after) => some (c :: before, after)
      | none => none

/-- The captured group of `re.search(r"‹fence›(?:json)?\s*(.*?)\s*‹fence›", text)`,
stripped: the text between the first fence pair, the optional `json` tag
consumed greedily (a closing fence can never overlap the consumed tag, and if
the first opening fence has no closing one, no later opening has either). -/
def fenceGroup (cs : List Char) : Option (List Char) :=
  match splitAtTriple cs with
  | none => none
  | some (_, after) =>
    let after' := if ['j', 's', 'o', 'n'].isPrefixOf after then after.drop 4 else after
    match splitAtTriple after' with
    | none => none
    | some (content, _) => some (pyStrip content)

/-- The suffix of `cs` starting at the first occurrence of `c`, if any
(`str.find` plus the scan that follows it). -/
def suffixFrom (c : Char) : List Char → Option (List Char)
  | [] => none
  | x :: xs => if x == c then some (x :: xs) else suffixFrom c xs

/-- The source's inner loop: walk the text, track bracket depth, and each time
the depth returns to zero try `json.loads` on the slice from the start; on a
parse failure keep scanning (`continue`). `pre` is the slice accumulated so
far (the source's `output_text[start_idx:i+1]`). -/
def scanBalanced (op cl : Char) (pre : List Char) : List Char → Int → Option PyJson
  | [], _ => none
  | c :: rest, depth =>
    if c == op then scanBalanced op cl (pre ++ [c]) rest (depth + 1)
    else if c == cl then
      if depth - 1 == 0 then
        match jsonLoadsL (pre ++ [c]) with
        | some v => some v
        | none => scanBalanced op cl (pre ++ [c]) rest (depth - 1)
      else scanBalanced op cl (pre ++ [c]) rest (depth - 1)
    else scanBalanced op cl (pre ++ [c]) rest depth

def tryBracket (op cl : Char) (cs : List Char) : Option PyJson :=
  match suffixFrom op cs with
  | none => none
  | some s => scanBalanced op cl [] s 0

def responseParserStage23 (cs : List Char) : Option PyJson :=
  match tryBracket '{' '}' cs with
  | some v => some v
  | none =>
    match tryBracket '[' ']' cs with
    | some v => some v
    | none => jsonLoadsL (pyStrip cs)

def responseParserL (cs : List Char) : Option PyJson :=
  if cs.isEmpty || (pyStrip cs).isEmpty then none
  else
    match fenceGroup cs with
    | some g => if g.isEmpty then responseParserStage23 cs else jsonLoadsL g
    | none => responseParserStage23 cs

/-- `response_parser` of `app/utils/utils.py`: total on strings; every failure
path of the source returns `None`. -/
def responseParser (s : String) : Option PyJson := responseParserL s.data

/-! ## Configuration constants (`app/core/config.py`)

Float-valued settings are embedded as exact rationals (the service compares
them only against ratios of header integers, far from any float-rounding
boundary). -/

def MAX_OUTPUT_TOKENS : Nat := 6590
def CHARS_PER_TOKEN : Nat := 4
def MIN_CONCURRENCY : Int := 10
def MAX_CONCURRENCY : Int := 200
def DEFAULT_CONCURRENCY : Int := 50
def HIGH_BUDGET_THRESHOLD : ℚ := 50 / 100
def MEDIUM_BUDGET_THRESHOLD : ℚ := 20 / 100
def LOW_BUDGET_THRESHOLD : ℚ := 10 / 100
def MIN_REMAINING_TOKENS_PCT : ℚ := 10 / 100
def MAX_RETRIES : Nat := 3
def BASE_RETRY_DELAY : ℚ := 1
def MAX_RETRY_DELAY : ℚ := 16
def JITTER_RANGE : ℚ := 1
def PROMPT_CACHE_TTL_SECONDS : ℚ := 300

/-! ## Rate limiter (`app/core/rate_limiter.py`) -/

/-- `DynamicRateLimiter.estimate_tokens`: floor-divide the text length by
`CHARS_PER_TOKEN` and add the worst-case output budget. -/
def estimateTokens (text : String) : Nat :=
  text.length / CHARS_PER_TOKEN + MAX_OUTPUT_TOKENS

/-- Python `int()` on a rational: truncation toward zero. -/
def pyTrunc (q : ℚ) : Int := if 0 ≤ q then ⌊q⌋ else ⌈q⌉

/-- Python `//` on integers: floor division. -/
def pyFloorDiv (a b : Int) : Int := Int.fdiv a b

/-- The mutable fields of `DynamicRateLimiter` the claims touch. The header
fields are `None` until a response carried the matching header. -/
structure LimiterState where
  tokenLimit : Option Int
  requestLimit : Option Int
  remainingTokens : Option Int
  remainingRequests : Option Int
  currentConcurrency : Int
  totalTokensUsed : Int
  totalRequestsMade : Nat
  paused : Bool

/-- `DynamicRateLimiter.get_safe_concurrency`: the dynamic-concurrency
computation, returning the chosen value and the state with
`current_concurrency` updated (the no-headers early return leaves the state
untouched). Callers establish that observed limits are positive; on
`token_limit = 0` the source would raise `ZeroDivisionError` instead. -/
def getSafeConcurrency (st : LimiterState) : Int × LimiterState :=
  match st.remainingTokens, st.tokenLimit with
  | some rt, some tl =>
    let remainingPct : ℚ := (rt : ℚ) / (tl : ℚ)
    let base : Int :=
      if remainingPct > HIGH_BUDGET_THRESHOLD then MAX_CONCURRENCY
      else if remainingPct > MEDIUM_BUDGET_THRESHOLD then
        pyTrunc ((MIN_CONCURRENCY : ℚ) +
          (remainingPct - MEDIUM_BUDGET_THRESHOLD) /
            (HIGH_BUDGET_THRESHOLD - MEDIUM_BUDGET_THRESHOLD) *
          ((MAX_CONCURRENCY : ℚ) - (MIN_CONCURRENCY : ℚ)))
      else if remainingPct > LOW_BUDGET_THRESHOLD then MIN_CONCURRENCY
      else max 1 (pyFloorDiv MIN_CONCURRENCY 2)
    let conc : Int :=
      match st.remainingRequests, st.requestLimit with
      | some rr, some rl =>
        if (rr : ℚ) / (rl : ℚ) < 10 / 100 then min base 5 else base
      | _, _ => base
    (conc, { st with currentConcurrency := conc })
  | _, _ => (DEFAULT_CONCURRENCY, st)

/-! ## Retry handler (`app/core/retry_handler.py`)

The wrapped coroutine's behaviour is a function from the attempt index to that
attempt's outcome; the jitter drawn by `random.uniform(0, JITTER_RANGE)` is a
function from the attempt index to the drawn value. The loop is embedded with
fuel `max_retries + 1` (the `range`); `result = none` models the Python
function falling off the loop's end (returning `None`), which the theorems
show unreachable. -/

/-- The exception taxonomy of the source's `except` ladder: `openai`'s
`RateLimitError`, `APITimeoutError`, `APIError` (with `getattr(e,
'status_code', None)`), the builtin `ConnectionError`/`TimeoutError`/`OSError`
family, and everything else. -/
inductive ApiErr where
  | rateLimit : ApiErr
  | timeoutErr : ApiErr
  | network : ApiErr
  | api (statusCode : Option Int) : ApiErr
  | other : ApiErr

/-- Whether the source's ladder sleeps-and-retries the error. For `APIError`
the source tests `if status_code:` — Python truthiness, so a status of `0`
lands in the "no status code" branch. -/
def errRetryable : ApiErr → Bool
  | .rateLimit => true
  | .timeoutErr => true
  | .network => true
  | .api none => true
  | .api (some s) =>
    if s == 0 then true
    else s == 500 || s == 502 || s == 503 || s == 504
  | .other => false

/-- One backoff sleep: `min(base_delay * 2**attempt, MAX_RETRY_DELAY)` plus the
jitter drawn for that attempt. -/
def retryDelay (attempt : Nat) (jitter : ℚ) : ℚ :=
  min (BASE_RETRY_DELAY * 2 ^ attempt) MAX_RETRY_DELAY + jitter

inductive CallOutcome (α : Type) where
  | ok (v : α) : CallOutcome α
  | err (e : ApiErr) : CallOutcome α

structure RetryResult (α : Type) where
  result : Option (Except ApiErr α)
  invocations : Nat
  sleeps : List ℚ

def retryAux {α : Type} (calls : Nat → CallOutcome α) (jitter : Nat → ℚ)
    (maxRetries : Nat) : Nat → Nat → RetryResult α
  | 0, _ => ⟨none, 0, []⟩
  | fuel + 1, attempt =>
    match calls attempt with
    | .ok v => ⟨some (.ok v), 1, []⟩
    | .err e =>
      if errRetryable e then
        if attempt == maxRetries then ⟨some (.error e), 1, []⟩
        else
          let rest := retryAux calls jitter maxRetries fuel (attempt + 1)
          ⟨rest.result, rest.invocations + 1,
           retryDelay attempt (jitter attempt) :: rest.sleeps⟩
      else ⟨some (.error e), 1, []⟩

/-- `retry_with_backoff(max_retries)` applied to a call with the given
per-attempt outcomes and jitter draws. -/
def retryWithBackoff {α : Type} (maxRetries : Nat) (calls : Nat → CallOutcome α)
    (jitter : Nat → ℚ) : RetryResult α :=
  retryAux calls jitter maxRetries (maxRetries + 1) 0

/-! ## Rule executor (`app/rules/base.py`)

The four rule functions share one body; the embedding models it once. Python
dictionaries are association lists with the source's operations: `pop` with a
default, subscript-assignment (update in place, append when new), `get`. -/

def PyDict : Type := List (List Char × PyJson)

def dictLookup (k : List Char) : PyDict → Option PyJson
  | [] => none
  | (k', v) :: rest => if k' == k then some v else dictLookup k rest

def dictErase (k : List Char) (d : PyDict) : PyDict :=
  d.filter (fun p => !(p.1 == k))

/-- `d.pop(k, dflt)`: the removed value (or the default) and the shrunk dict. -/
def dictPop (k : List Char) (d : PyDict) (dflt : PyJson) : PyJson × PyDict :=
  match dictLookup k d with
  | some v => (v, dictErase k d)
  | none => (dflt, d)

/-- `d[k] = v`: replace in place if the key exists, else append. -/
def dictSet (k : List Char) (v : PyJson) : PyDict → PyDict
  | [] => [(k, v)]
  | (k', v') :: rest => if k' == k then (k, v) :: rest else (k', v') :: dictSet k v rest

def dictKeys (d : PyDict) : List (List Char) := d.map Prod.fst

/-- The executor's eight keyword arguments after `process_single_rule`'s
column selection, i.e. the values of the source's `input_fields` dict. A
record field that was `None` is embedded as `""` (both are falsy in every use
the source makes of them). -/
structure FieldValues where
  public_remarks : String
  private_agent_remarks : String
  directions : String
  showing_instructions : String
  confidential_remarks : String
  supplement_remarks : String
  concessions : String
  sale_factors : String

/-- `input_fields.get(source_key, "")`. -/
def FieldValues.get (fv : FieldValues) (k : List Char) : String :=
  if k == "public_remarks".data then fv.public_remarks
  else if k == "private_agent_remarks".data then fv.private_agent_remarks
  else if k == "directions".data then fv.directions
  else if k == "showing_instructions".data then fv.showing_instructions
  else if k == "confidential_remarks".data then fv.confidential_remarks
  else if k == "supplement_remarks".data then fv.supplement_remarks
  else if k == "concessions".data then fv.concessions
  else if k == "sale_factors".data then fv.sale_factors
  else ""

/-- `field_mappings`: internal template variable name → API column name. -/
def fieldMappings : List (List Char × List Char) :=
  [("public_remarks".data, "Remarks".data),
   ("private_agent_remarks".data, "PrivateRemarks".data),
   ("directions".data, "Directions".data),
   ("showing_instructions".data, "ShowingInstructions".data),
   ("confidential_remarks".data, "ConfidentialRemarks".data),
   ("supplement_remarks".data, "SupplementRemarks".data),
   ("concessions".data, "Concessions".data),
   ("sale_factors".data, "SaleFactors".data)]

/-- One iteration of the executor's mapping loop: pop the internal key; keep
the violations under the API column when the input was non-empty; drop them
when it was empty; record an explicit empty list for a non-empty input with no
violations. -/
def applyFieldStep (fv : FieldValues) (d : PyDict) (m : List Char × List Char) : PyDict :=
  let p := dictPop m.1 d (.arr [])
  let inputValue := fv.get m.1
  if pyTruthy p.1 then
    if inputValue == "" then p.2
    else dictSet m.2 p.1 p.2
  else
    if inputValue == "" then p.2
    else dictSet m.2 (.arr []) p.2

def mapResultToColumns (fv : FieldValues) (jsonResult : PyDict) : PyDict :=
  fieldMappings.foldl (applyFieldStep fv) jsonResult

/-- Steps 6–8 of the executor: parse the model's text, extract the top-level
`result` mapping, run the column-mapping loop and attach `Total_tokens` from
the reported usage. Every non-conforming shape raises in the source
(`KeyError`/`TypeError`/`AttributeError`), embedded as `Except.error`. -/
def ruleExecutorOutput (fv : FieldValues) (outputText : String) (usageTokens : Int) :
    Except String PyDict :=
  match responseParser outputText with
  | some (.obj kvs) =>
    match dictLookup "result".data kvs with
    | some (.obj jr) =>
      .ok (dictSet "Total_tokens".data (.num usageTokens) (mapResultToColumns fv jr))
    | some _ => .error "model result is not a mapping"
    | none => .error "KeyError: result"
  | some _ => .error "model output is not a mapping"
  | none => .error "NoneType is not subscriptable"

/-! ## Dispatch (`app/api/routes.py`) -/

/-- A `Data` record. Optional text fields default to `""`; an explicit `null`
is also embedded as `""` (both falsy wherever the source tests them). -/
structure DataItem where
  mlsnum : String
  mlsId : String
  Remarks : String := ""
  PrivateRemarks : String := ""
  Directions : String := ""
  ShowingInstructions : String := ""
  ConfidentialRemarks : String := ""
  SupplementRemarks : String := ""
  Concessions : String := ""
  SaleFactors : String := ""

/-- `process_single_rule`'s column selection: a column not in the rule's
`columns` contributes `""`. -/
def selectInputs (record : DataItem) (columns : List String) : FieldValues where
  public_remarks := if columns.contains "Remarks" then record.Remarks else ""
  private_agent_remarks := if columns.contains "PrivateRemarks" then record.PrivateRemarks else ""
  directions := if columns.contains "Directions" then record.Directions else ""
  showing_instructions := if columns.contains "ShowingInstructions" then record.ShowingInstructions else ""
  confidential_remarks := if columns.contains "ConfidentialRemarks" then record.ConfidentialRemarks else ""
  supplement_remarks := if columns.contains "SupplementRemarks" then record.SupplementRemarks else ""
  concessions := if columns.contains "Concessions" then record.Concessions else ""
  sale_factors := if columns.contains "SaleFactors" then record.SaleFactors else ""

/-- The record's text field for an API column name. -/
def recordField (r : DataItem) (api : String) : String :=
  if api == "Remarks" then r.Remarks
  else if api == "PrivateRemarks" then r.PrivateRemarks
  else if api == "Directions" then r.Directions
  else if api == "ShowingInstructions" then r.ShowingInstructions
  else if api == "ConfidentialRemarks" then r.ConfidentialRemarks
  else if api == "SupplementRemarks" then r.SupplementRemarks
  else if api == "Concessions" then r.Concessions
  else if api == "SaleFactors" then r.SaleFactors
  else ""

/-- How one `(record, rule)` call behaves: the LLM round trip succeeded and
produced `text` with `usage` total tokens, or the rule function raised (a
retry-exhausted or non-retryable error, a template error, …). -/
inductive RuleCall where
  | modelOutput (text : String) (usage : Int) : RuleCall
  | raises (msg : String) : RuleCall

/-- The error finding `process_single_rule` builds in its `except` branch: the
eight API columns all empty plus an `error` string. -/
def errorFinding (msg : String) : PyDict :=
  [("Remarks".data, .arr []), ("PrivateRemarks".data, .arr []),
   ("Directions".data, .arr []), ("ShowingInstructions".data, .arr []),
   ("ConfidentialRemarks".data, .arr []), ("SupplementRemarks".data, .arr []),
   ("Concessions".data, .arr []), ("SaleFactors".data, .arr []),
   ("error".data, .str msg.data)]

/-- `result.get("Total_tokens", 0)` (the rule functions always store an
integer there; the error finding has no such key, so the default `0`). -/
def tokensOf (d : PyDict) : Int :=
  match dictLookup "Total_tokens".data d with
  | some (.num n) => n
  | _ => 0

/-- `process_single_rule`: run the rule, catch any exception into an error
finding with zero tokens; return `(rule_id.upper(), finding, tokens_used)`. -/
def processSingleRule (record : DataItem) (ruleId : String) (columns : List String)
    (call : RuleCall) : String × PyDict × Int :=
  let fv := selectInputs record columns
  match call with
  | .raises msg => (pyUpper ruleId, errorFinding msg, 0)
  | .modelOutput text usage =>
    match ruleExecutorOutput fv text usage with
    | .ok finding => (pyUpper ruleId, finding, tokensOf finding)
    | .error msg => (pyUpper ruleId, errorFinding msg, 0)

/-- The null-collapse test of `process_record`: every list-valued field other
than `Total_tokens` and `error` is empty. -/
def allEmptyArrays (d : PyDict) : Bool :=
  d.all fun p =>
    p.1 == "Total_tokens".data || p.1 == "error".data ||
    (match p.2 with
     | .arr v => v.isEmpty
     | _ => true)

/-- Replace an all-empty finding by `null`. -/
def nullCollapse (d : PyDict) : Option PyDict :=
  if allEmptyArrays d then none else some d

/-- What `asyncio.gather(..., return_exceptions=True)` hands the aggregation
loop for one rule task: the tuple, or a captured exception. -/
inductive RuleOutcome where
  | tuple (ruleIdUpper : String) (ruleResult : PyDict) (tokensUsed : Int) : RuleOutcome
  | exn (msg : String) : RuleOutcome

/-- `record_result[rule_id_upper] = rule_result` over `String` keys. -/
def assocSetStr (k : String) (v : PyDict) : List (String × PyDict) → List (String × PyDict)
  | [] => [(k, v)]
  | (k', v') :: rest => if k' == k then (k, v) :: rest else (k', v') :: assocSetStr k v rest

/-- The part of a `process_record` result dict the claims speak about
(`latency` is wall-clock and outside the model). -/
structure RecordResult where
  mlsnum : String
  mlsId : String
  ruleEntries : List (String × Option PyDict)
  tokensUsed : Int

/-- `process_record`'s aggregation: store each tuple's finding under its rule
id, sum the tuples' token counts, log-and-skip captured exceptions, then
null-collapse every finding. -/
def processRecord (record : DataItem) (outcomes : List RuleOutcome) : RecordResult :=
  let raw : List (String × PyDict) :=
    outcomes.foldl
      (fun acc o =>
        match o with
        | .tuple rid d _ => assocSetStr rid d acc
        | .exn _ => acc) []
  let total : Int :=
    outcomes.foldl
      (fun acc o =>
        match o with
        | .tuple _ _ t => acc + t
        | .exn _ => acc) 0
  { mlsnum := record.mlsnum, mlsId := record.mlsId,
    ruleEntries := raw.map (fun p => (p.1, nullCollapse p.2)),
    tokensUsed := total }

/-- A record and its applicable rules, processed end to end through
`process_single_rule`. -/
def processRecordRules (record : DataItem)
    (rules : List (String × List String × RuleCall)) : RecordResult :=
  processRecord record
    (rules.map fun r =>
      let t := processSingleRule record r.1 r.2.1 r.2.2
      .tuple t.1 t.2.1 t.2.2)

/-- A record task's result as `asyncio.gather` returns it to
`process_all_records`. -/
inductive RecordOutcome where
  | ok (r : RecordResult) : RecordOutcome
  | exn (msg : String) : RecordOutcome

/-- The response fields the claims speak about (`request_id`, `elapsed_time`
and `error_message` are tracing/wall-clock). -/
structure JobResponse where
  ok : Nat
  results : List RecordResult
  totalTokens : Int

/-- `total_tokens = sum(r["tokens_used"] for r in results if isinstance(r, dict))`. -/
def sumRecordTokens (outcomes : List RecordOutcome) : Int :=
  outcomes.foldl
    (fun acc o =>
      match o with
      | .ok r => acc + r.tokensUsed
      | .exn _ => acc) 0

/-- `clean_results = [r for r in results if isinstance(r, dict)]`. -/
def cleanResults (outcomes : List RecordOutcome) : List RecordResult :=
  outcomes.foldr
    (fun o acc =>
      match o with
      | .ok r => r :: acc
      | .exn _ => acc) []

/-- `process_all_records`' final accounting: drop captured exceptions, sum
`tokens_used` over the dicts among the gathered results, answer `ok = 200`. -/
def processAllRecords (outcomes : List RecordOutcome) : JobResponse :=
  { ok := 200, results := cleanResults outcomes,
    totalTokens := sumRecordTokens outcomes }

/-! ## Prompt cache (`app/core/prompt_cache.py`)

The two-level dict is flattened to `(rule_key, mls_id)` keys (the source never
distinguishes the levels observably for the claims below). Wall-clock instants
are rationals passed explicitly where the source calls `time.time()`; the
remote registry is a pure map from prompt name to its stored prompt. The
`gather` of concurrent loads is embedded as a sequential fold — the claims
here concern TTL arithmetic, not interleavings. -/

structure RegistryPrompt where
  prompt : String
  version : Nat

/-- `_build_prompt_data` (the `config` field is opaque to every claim). -/
structure PromptData where
  name : String
  prompt : String
  version : Nat
  ruleId : String
  mlsId : String

inductive CacheVal where
  | real (d : PromptData) : CacheVal
  | useDefault : CacheVal

structure CacheState where
  cache : List ((String × String) × CacheVal)
  stamps : List ((String × String) × ℚ)
  ttl : ℚ

def Registry : Type := String → Option RegistryPrompt

def cacheLookup (st : CacheState) (k : String × String) : Option CacheVal :=
  (st.cache.find? (fun p => p.1 == k)).map Prod.snd

/-- `self._cache_timestamps.get(rule_key, {}).get(mls_id, 0)`. -/
def stampOf (st : CacheState) (k : String × String) : ℚ :=
  ((st.stamps.find? (fun p => p.1 == k)).map Prod.snd).getD 0

def cacheEvict (st : CacheState) (k : String × String) : CacheState :=
  { st with cache := st.cache.filter (fun p => !(p.1 == k)),
            stamps := st.stamps.filter (fun p => !(p.1 == k)) }

def assocPut {β : Type} (k : String × String) (v : β) :
    List ((String × String) × β) → List ((String × String) × β)
  | [] => [(k, v)]
  | (k', v') :: rest => if k' == k then (k, v) :: rest else (k', v') :: assocPut k v rest

def cachePut (st : CacheState) (k : String × String) (v : CacheVal) (now : ℚ) : CacheState :=
  { st with cache := assocPut k v st.cache, stamps := assocPut k now st.stamps }

def customPromptName (ruleId mlsId : String) : String :=
  pyUpper ruleId ++ "_" ++ mlsId ++ "_violation"

def defaultPromptName (ruleId : String) : String :=
  pyUpper ruleId ++ "_violation"

def buildPromptData (p : RegistryPrompt) (name ruleId mlsId : String) : PromptData :=
  { name := name, prompt := p.prompt, version := p.version,
    ruleId := ruleId, mlsId := mlsId }

/-- `_get_from_cache`: uppercase the rule for lookup, evict on TTL expiry,
resolve the sentinel to the rule's `default` entry. The source recurses once
when it meets the sentinel; sentinels are stored only under non-`default` MLS
keys, so depth 2 covers every reachable state (the fuel-0 branch is dead). -/
def getFromCacheAux : Nat → CacheState → ℚ → String → String →
    Option PromptData × CacheState
  | 0, st, _, _, _ => (none, st)
  | fuel + 1, st, now, ruleId, mlsId =>
    let rk := pyUpper ruleId
    match cacheLookup st (rk, mlsId) with
    | none => (none, st)
    | some v =>
      if st.ttl > 0 ∧ now - stampOf st (rk, mlsId) > st.ttl then
        (none, cacheEvict st (rk, mlsId))
      else
        match v with
        | .useDefault => getFromCacheAux fuel st now rk "default"
        | .real d => (some d, st)

def getFromCache (st : CacheState) (now : ℚ) (ruleId mlsId : String) :
    Option PromptData × CacheState :=
  getFromCacheAux 2 st now ruleId mlsId

/-- `_store_in_cache` (the version-change log line carries no state). -/
def storeInCache (st : CacheState) (now : ℚ) (ruleId mlsId : String)
    (d : PromptData) : CacheState :=
  cachePut st (pyUpper ruleId, mlsId) (.real d) now

/-- `_load_prompt`: try the custom name (unless the request is for
`default`), on not-found write the sentinel, then reuse or fetch the default.
Returns the loaded data, the new state, and the names fetched from the remote
registry, in order. -/
def loadPrompt (reg : Registry) (st : CacheState) (now : ℚ) (ruleId mlsId : String) :
    Option PromptData × CacheState × List String :=
  let rk := pyUpper ruleId
  if mlsId == "default" then
    loadDefaultStep reg st now rk []
  else
    let customName := customPromptName rk mlsId
    match reg customName with
    | some p =>
      let d := buildPromptData p customName rk mlsId
      (some d, storeInCache st now rk mlsId d, [customName])
    | none =>
      let st₁ := cachePut st (rk, mlsId) .useDefault now
      loadDefaultStep reg st₁ now rk [customName]
where
  /-- Step (b): reuse a cached fresh default, else fetch `{RULE}_violation`. -/
  loadDefaultStep (reg : Registry) (st : CacheState) (now : ℚ) (rk : String)
      (fetchedSoFar : List String) : Option PromptData × CacheState × List String :=
    let c := getFromCache st now rk "default"
    match c.1 with
    | some d => (some d, c.2, fetchedSoFar)
    | none =>
      let dn := defaultPromptName rk
      match reg dn with
      | some p =>
        let d := buildPromptData p dn rk "default"
        (some d, storeInCache c.2 now rk "default" d, fetchedSoFar ++ [dn])
      | none => (none, c.2, fetchedSoFar ++ [dn])

/-- `get_prompt`: the cache fast path, else `_load_prompt`. -/
def getPrompt (reg : Registry) (st : CacheState) (now : ℚ) (ruleId mlsId : String) :
    Option PromptData × CacheState × List String :=
  let c := getFromCache st now ruleId mlsId
  match c.1 with
  | some d => (some d, c.2, [])
  | none => loadPrompt reg c.2 now ruleId mlsId

/-- Phase 1 of `load_batch_prompts`: the `to_load` comprehension, threading the
evictions `_get_from_cache` performs. -/
def batchPhase1 (st : CacheState) (t1 : ℚ) :
    List (String × String) → CacheState × List (String × String)
  | [] => (st, [])
  | p :: ps =>
    let c := getFromCache st t1 p.1 p.2
    let rest := batchPhase1 c.2 t1 ps
    (rest.1, if c.1.isNone then p :: rest.2 else rest.2)

/-- Phase 2: load every missing pair (the source gathers these concurrently
and discards the returned values — they live in the cache). -/
def batchPhase2 (reg : Registry) (t2 : ℚ) :
    CacheState → List (String × String) → CacheState × List String
  | st, [] => (st, [])
  | st, p :: ps =>
    let l := loadPrompt reg st t2 p.1 p.2
    let rest := batchPhase2 reg t2 l.2.1 ps
    (rest.1, l.2.2 ++ rest.2)

/-- Phase 3: the returned mapping — a re-read of the cache, pair by pair. -/
def batchPhase3 (t3 : ℚ) :
    CacheState → List (String × String) →
    CacheState × List ((String × String) × Option PromptData)
  | st, [] => (st, [])
  | st, p :: ps =>
    let c := getFromCache st t3 p.1 p.2
    let rest := batchPhase3 t3 c.2 ps
    (rest.1, (p, c.1) :: rest.2)

structure BatchResult where
  result : List ((String × String) × Option PromptData)
  state : CacheState
  fetched : List String

/-- `load_batch_prompts` with the instants of its three successive passes:
`t1` when the `to_load` comprehension runs, `t2` when the loads run, `t3` when
the final result mapping is built. -/
def loadBatchPrompts (reg : Registry) (st : CacheState)
    (pairs : List (String × String)) (t1 t2 t3 : ℚ) : BatchResult :=
  let ph1 := batchPhase1 st t1 pairs
  let ph2 := batchPhase2 reg t2 ph1.1 ph1.2
  let ph3 := batchPhase3 t3 ph2.1 pairs
  { result := ph3.2, state := ph3.1, fetched := ph2.2 }

/-- The result mapping's entry for a pair. -/
def batchLookup (b : BatchResult) (p : String × String) : Option PromptData :=
  ((b.result.find? (fun q => q.1 == p)).map Prod.snd).getD none

/-! ## Statements taken from the specification's words

These definitions render the spec side of the claims that compare the code
against an enumeration the spec gives; each is compared with the definitions
embedded from the source above. -/

/-- The retry table of spec §4.B: rate limit, timeout, network/connection/OS
I/O error, upstream 500/502/503/504, upstream error with no status code. -/
def specRetryable (e : ApiErr) : Prop :=
  e = .rateLimit ∨ e = .timeoutErr ∨ e = .network ∨ e = .api none ∨
  ∃ s, e = .api (some s) ∧ (s = 500 ∨ s = 502 ∨ s = 503 ∨ s = 504)

/-- An upstream status code that can actually reach the handler over HTTP
(every real status is ≥ 100; Python's `if status_code:` treats a hypothetical
status `0` like a missing one). -/
def httpStatusOk : ApiErr → Prop
  | .api (some s) => 100 ≤ s
  | _ => True

/-- Spec §4.B's contract for one run of the retry loop that entered at
`attempt`: at least one and at most `max_retries + 1 − attempt` invocations;
the sleeps are exactly `min(base·2^i, max_delay) + jitter(i)` for the
attempts `i` before the last; every invocation before the last failed with a
retryable error (so a non-retryable error is raised immediately, with no
retry after it); a final success is returned; and a final error is re-raised,
a retryable one only once the attempts are exhausted. -/
def RetrySpec {α : Type} (calls : Nat → CallOutcome α) (jitter : Nat → ℚ)
    (maxRetries attempt : Nat) (r : RetryResult α) : Prop :=
  1 ≤ r.invocations ∧
  attempt + r.invocations ≤ maxRetries + 1 ∧
  r.sleeps = (List.range (r.invocations - 1)).map
      (fun i => retryDelay (attempt + i) (jitter (attempt + i))) ∧
  (∀ i, i < r.invocations - 1 →
    ∃ e, calls (attempt + i) = .err e ∧ errRetryable e = true) ∧
  (∀ v, calls (attempt + (r.invocations - 1)) = .ok v → r.result = some (.ok v)) ∧
  (∀ e, calls (attempt + (r.invocations - 1)) = .err e →
    r.result = some (.error e) ∧
    (errRetryable e = true → attempt + r.invocations = maxRetries + 1))

/-- The concurrency table of spec §4.C: `max_concurrency` above 50 % budget,
the linear interpolation between `min_concurrency` and `max_concurrency` with
ratio `(p − 0.20)/0.30` (brought to an integer by the source's `int()`
truncation) between 20 % and 50 %, `min_concurrency` between 10 % and 20 %,
and `floor(min_concurrency / 2)`, at least 1, below 10 %. -/
def specBaseConcurrency (p : ℚ) : Int :=
  if p > 1 / 2 then MAX_CONCURRENCY
  else if p > 1 / 5 then
    pyTrunc ((MIN_CONCURRENCY : ℚ) +
      (p - 1 / 5) / (3 / 10) * ((MAX_CONCURRENCY : ℚ) - (MIN_CONCURRENCY : ℚ)))
  else if p > 1 / 10 then MIN_CONCURRENCY
  else max 1 ⌊(MIN_CONCURRENCY : ℚ) / 2⌋

/-- The request-ratio clamp of spec §4.C: at most 5 when fewer than 10 % of
requests remain (and both request headers have been observed). -/
def specRequestClamp (st : LimiterState) (base : Int) : Int :=
  match st.remainingRequests, st.requestLimit with
  | some rr, some rl => if (rr : ℚ) / (rl : ℚ) < 1 / 10 then min base 5 else base
  | _, _ => base

/-- The spec's full safe-concurrency value once token headers are observed. -/
def specSafeConc (st : LimiterState) (rt tl : Int) : Int :=
  specRequestClamp st (specBaseConcurrency ((rt : ℚ) / (tl : ℚ)))

/-- Printable ASCII. -/
def printableChar (c : Char) : Bool := 32 ≤ c.toNat && c.toNat ≤ 126

/-- Characters that none of `response_parser`'s extraction stages react to:
printable ASCII without braces, square brackets and the backtick. Quotes and
backslashes are fine — `json.dumps` escapes them. -/
def safeChar (c : Char) : Bool :=
  printableChar c && !(c == '{') && !(c == '}') && !(c == '[') && !(c == ']') &&
    !(c == btick)

/-- The answer shape the Executor accepts (claim C8): a mapping with the
top-level `result` key whose values are lists of strings. -/
def mkExecMapping (m : List (List Char × List (List Char))) : PyJson :=
  .obj [("result".data, .obj (m.map (fun p => (p.1, .arr (p.2.map PyJson.str)))))]

/-- Every key and every violation string of the mapping holds only safe
characters. -/
def safeMapping (m : List (List Char × List (List Char))) : Prop :=
  ∀ p ∈ m, (∀ c ∈ p.1, safeChar c = true) ∧ ∀ s ∈ p.2, ∀ c ∈ s, safeChar c = true

/-! ## Concrete inputs used by counterexamples and witnesses -/

/-- A safe executor answer: one key, one violation string. -/
def exSafeMapping : List (List Char × List (List Char)) :=
  [("public_remarks".data, ["no violations found".data])]

/-- A limiter that observed all four headers: 30 % of tokens and 5 % of
requests remaining. -/
def exLimiter : LimiterState :=
  { tokenLimit := some 1000, requestLimit := some 1000,
    remainingTokens := some 300, remainingRequests := some 50,
    currentConcurrency := 50, totalTokensUsed := 0, totalRequestsMade := 0,
    paused := false }

/-- A record with two populated text fields. -/
def exRecord : DataItem :=
  { mlsnum := "ML1", mlsId := "M", Remarks := "hello", PrivateRemarks := "world" }

/-- A record whose `Remarks` field is present but empty. -/
def exRecordEmpty : DataItem := { mlsnum := "ML2", mlsId := "M", Remarks := "" }

/-- A stubbed model output keyed by the internal variable names: one violation
in `public_remarks`, none in `private_agent_remarks`. -/
def exCompOutput : String :=
  "\x7b\"result\": \x7b\"public_remarks\": [\"viol1\"], \"private_agent_remarks\": []\x7d\x7d"

/-- A stubbed model output whose top-level `result` key is the API column name
`Remarks` rather than an internal variable name. -/
def exApiKeyOutput : String :=
  "\x7b\"result\": \x7b\"Remarks\": [\"steering language\"]\x7d\x7d"

/-- The `result` mapping of `exCompOutput` as the parser yields it. -/
def exJr : PyDict :=
  [("public_remarks".data, .arr [.str "viol1".data]),
   ("private_agent_remarks".data, .arr [])]

/-- The full parsed `exCompOutput`. -/
def exOuter : PyDict := [("result".data, .obj exJr)]

/-- The two-rule workload of the error-handling counterexample: `FAIR` raises,
`COMP` answers with one violation. -/
def exRules : List (String × List String × RuleCall) :=
  [("FAIR", ["Remarks"], .raises "boom"),
   ("COMP", ["Remarks", "PrivateRemarks"], .modelOutput exCompOutput 55)]

/-- The mapping of the round-trip counterexample: an accepted model answer one
of whose violation strings is a closing brace. -/
def exBraceMapping : PyJson :=
  .obj [("result".data, .obj [("public_remarks".data, .arr [.str ['}']])])]

/-- A prompt registry holding default prompts for `FAIR` and `COMP` and no
custom prompts. -/
def exRegistry : Registry := fun name =>
  if name == "FAIR_violation" then some ⟨"fair default text", 1⟩
  else if name == "COMP_violation" then some ⟨"comp default text", 1⟩
  else none

/-- The empty cache with the default 300 s TTL. -/
def exCache0 : CacheState := ⟨[], [], PROMPT_CACHE_TTL_SECONDS⟩

/-- The cache after `FAIR`'s default prompt was loaded at `t = 0`. -/
def exCacheA : CacheState := (getPrompt exRegistry exCache0 0 "FAIR" "default").2.1

/-- `exCacheA` after `get_prompt("FAIR", "Miami")` at `t = 100`: the custom
lookup misses, the sentinel is stored at 100, the cached default is served. -/
def exCacheB : CacheState := (getPrompt exRegistry exCacheA 100 "FAIR" "Miami").2.1

/-- The prompt data `exRegistry` yields for `FAIR_violation`. -/
def exFairDefault : PromptData :=
  { name := "FAIR_violation", prompt := "fair default text", version := 1,
    ruleId := "FAIR", mlsId := "default" }

/-! ## Lemmas about the dispatch pipeline -/

theorem nullCollapse_errorFinding (msg : String) :
    nullCollapse (errorFinding msg) = none := rfl

theorem tokensOf_errorFinding (msg : String) : tokensOf (errorFinding msg) = 0 := rfl

/-- Both components of a `process_single_rule` tuple: the key is the
uppercased rule id, and the reported token count is the finding's
`Total_tokens` entry (`0` for the error finding, which has none). -/
theorem processSingleRule_fst (record : DataItem) (rid : String) (cols : List String)
    (call : RuleCall) : (processSingleRule record rid cols call).1 = pyUpper rid := by
  cases call with
  | raises msg => rfl
  | modelOutput text usage =>
    simp only [processSingleRule]
    cases ruleExecutorOutput (selectInputs record cols) text usage <;> rfl

theorem processSingleRule_tokens_eq (record : DataItem) (rid : String)
    (cols : List String) (call : RuleCall) :
    (processSingleRule record rid cols call).2.2
      = tokensOf (processSingleRule record rid cols call).2.1 := by
  cases call with
  | raises msg => simp [processSingleRule, tokensOf_errorFinding]
  | modelOutput text usage =>
    simp only [processSingleRule]
    cases ruleExecutorOutput (selectInputs record cols) text usage with
    | ok f => rfl
    | error msg => simp [tokensOf_errorFinding]

theorem assocSetStr_fresh (k : String) (v : PyDict) (acc : List (String × PyDict))
    (h : ∀ p ∈ acc, p.1 ≠ k) : assocSetStr k v acc = acc ++ [(k, v)] := by
  induction acc with
  | nil => rfl
  | cons q rest ih =>
    obtain ⟨k', v'⟩ := q
    have hq : k' ≠ k := h (k', v') (List.mem_cons_self ..)
    simp only [assocSetStr, beq_iff_eq, if_neg hq, List.cons_append, List.cons.injEq,
      true_and]
    exact ih (fun p hp => h p (List.mem_cons_of_mem _ hp))

/-- Folding dict insertion over pairs with pairwise-distinct keys appends them
in order. -/
theorem foldl_assocSetStr (l : List (String × PyDict)) (acc : List (String × PyDict))
    (hnodup : (l.map Prod.fst).Nodup)
    (hdisj : ∀ p ∈ acc, ∀ q ∈ l, p.1 ≠ q.1) :
    l.foldl (fun acc p => assocSetStr p.1 p.2 acc) acc = acc ++ l := by
  induction l generalizing acc with
  | nil => simp
  | cons q rest ih =>
    simp only [List.map_cons, List.nodup_cons] at hnodup
    have step : assocSetStr q.1 q.2 acc = acc ++ [q] := by
      have := assocSetStr_fresh q.1 q.2 acc
        (fun p hp => hdisj p hp q (List.mem_cons_self ..))
      simpa using this
    have hdisj' : ∀ p ∈ acc ++ [q], ∀ r ∈ rest, p.1 ≠ r.1 := by
      intro p hp r hr
      rcases List.mem_append.mp hp with hp | hp
      · exact hdisj p hp r (List.mem_cons_of_mem _ hr)
      · have : p = q := by simpa using hp
        subst this
        intro he
        exact hnodup.1 (he ▸ List.mem_map_of_mem Prod.fst hr)
    calc (q :: rest).foldl (fun acc p => assocSetStr p.1 p.2 acc) acc
        = rest.foldl (fun acc p => assocSetStr p.1 p.2 acc) (acc ++ [q]) := by
          simp [step]
      _ = (acc ++ [q]) ++ rest := ih (acc ++ [q]) hnodup.2 hdisj'
      _ = acc ++ q :: rest := by simp

theorem foldl_add_sum {α : Type} (l : List α) (f : α → Int) (a : Int) :
    l.foldl (fun acc x => acc + f x) a = a + (l.map f).sum := by
  induction l generalizing a with
  | nil => simp
  | cons x rest ih => simp [ih, add_assoc]

/-- The aggregated rule entries of a record: one entry per rule, in order, the
finding null-collapsed — provided the uppercased rule ids are distinct (a
duplicate would overwrite, as a Python dict assignment does). -/
theorem processRecordRules_entries (record : DataItem)
    (rules : List (String × List String × RuleCall))
    (hnodup : (rules.map (fun r => pyUpper r.1)).Nodup) :
    (processRecordRules record rules).ruleEntries
      = rules.map (fun r =>
          (pyUpper r.1, nullCollapse (processSingleRule record r.1 r.2.1 r.2.2).2.1)) := by
  unfold processRecordRules processRecord
  simp only [List.foldl_map]
  have hfold :
      rules.foldl
        (fun acc r =>
          assocSetStr (processSingleRule record r.1 r.2.1 r.2.2).1
            (processSingleRule record r.1 r.2.1 r.2.2).2.1 acc) []
        = rules.map (fun r =>
            ((processSingleRule record r.1 r.2.1 r.2.2).1,
             (processSingleRule record r.1 r.2.1 r.2.2).2.1)) := by
    have := foldl_assocSetStr
      (rules.map (fun r =>
        ((processSingleRule record r.1 r.2.1 r.2.2).1,
         (processSingleRule record r.1 r.2.1 r.2.2).2.1))) []
      (by
        simp only [List.map_map]
        have : ((fun p : String × PyDict => p.1) ∘ fun r : String × List String × RuleCall =>
            ((processSingleRule record r.1 r.2.1 r.2.2).1,
             (processSingleRule record r.1 r.2.1 r.2.2).2.1))
            = fun r : String × List String × RuleCall => pyUpper r.1 := by
          funext r
          exact processSingleRule_fst record r.1 r.2.1 r.2.2
        rw [this]
        exact hnodup)
      (by intro p hp; simp at hp)
    rw [List.foldl_map] at this
    simpa using this
  rw [hfold, List.map_map]
  congr 1
  funext r
  simp [processSingleRule_fst]

theorem processRecordRules_tokens (record : DataItem)
    (rules : List (String × List String × RuleCall)) :
    (processRecordRules record rules).tokensUsed
      = (rules.map (fun r => (processSingleRule record r.1 r.2.1 r.2.2).2.2)).sum := by
  unfold processRecordRules processRecord
  simp only [List.foldl_map]
  rw [foldl_add_sum rules (fun r => (processSingleRule record r.1 r.2.1 r.2.2).2.2) 0]
  simp

theorem sumRecordTokens_eq (outcomes : List RecordOutcome) :
    sumRecordTokens outcomes = ((cleanResults outcomes).map (fun r => r.tokensUsed)).sum := by
  suffices h : ∀ a : Int,
      outcomes.foldl
        (fun acc o =>
          match o with
          | .ok r => acc + r.tokensUsed
          | .exn _ => acc) a
        = a + ((cleanResults outcomes).map (fun r => r.tokensUsed)).sum by
    simpa [sumRecordTokens] using h 0
  induction outcomes with
  | nil => intro a; simp [cleanResults]
  | cons o rest ih =>
    intro a
    cases o with
    | ok r => simp [cleanResults, List.foldl_cons, ih, add_assoc, add_comm, add_left_comm]
    | exn m => simpa [cleanResults, List.foldl_cons] using ih a

/-! ## The claims -/

/-- C4, counterexample: the claim says the pre-call estimate is
`ceil(len(text)/4) + 6590`, rounding up for lengths not divisible by 4; the
source computes `len(text) // 4 + 6590`. On the 5-character text `"aaaaa"`
the code yields 6591 while the claimed formula yields 6592. -/
theorem C4_counterexample :
    estimateTokens "aaaaa" = 6591 ∧
    ⌈(("aaaaa".length : ℚ)) / (CHARS_PER_TOKEN : ℚ)⌉ + (MAX_OUTPUT_TOKENS : ℤ) = 6592 ∧
    (estimateTokens "aaaaa" : ℤ)
      ≠ ⌈(("aaaaa".length : ℚ)) / (CHARS_PER_TOKEN : ℚ)⌉ + (MAX_OUTPUT_TOKENS : ℤ) := by
  have hlen : ("aaaaa" : String).length = 5 := rfl
  have hc : ⌈(((5 : ℕ) : ℚ)) / (((4 : ℕ) : ℚ))⌉ = (2 : ℤ) := by
    rw [Int.ceil_eq_iff]
    norm_num
  have hval : ⌈(("aaaaa".length : ℚ)) / (CHARS_PER_TOKEN : ℚ)⌉ + (MAX_OUTPUT_TOKENS : ℤ) = 6592 := by
    rw [hlen, show (CHARS_PER_TOKEN : ℚ) = ((4 : ℕ) : ℚ) from rfl, hc]
    norm_num [MAX_OUTPUT_TOKENS]
  refine ⟨rfl, hval, ?_⟩
  rw [hval, show estimateTokens "aaaaa" = 6591 from rfl]
  norm_num

/-- C4, amended: the pre-call token estimate is
`floor(len(text)/4) + MAX_OUTPUT_TOKENS` — integer floor division, so a length
not divisible by 4 rounds down, not up. -/
theorem C4_amended (text : String) :
    (estimateTokens text : ℤ)
      = ⌊((text.length : ℚ)) / (CHARS_PER_TOKEN : ℚ)⌋ + (MAX_OUTPUT_TOKENS : ℤ) := by
  have h4 : ⌊((text.length : ℚ)) / ((4 : ℕ) : ℚ)⌋ = ((text.length / 4 : ℕ) : ℤ) := by
    rw [Int.floor_eq_iff]
    constructor
    · rw [le_div_iff₀ (by norm_num : (0 : ℚ) < ((4 : ℕ) : ℚ))]
      exact_mod_cast Nat.div_mul_le_self text.length 4
    · rw [div_lt_iff₀ (by norm_num : (0 : ℚ) < ((4 : ℕ) : ℚ))]
      have : text.length < (text.length / 4 + 1) * 4 := by omega
      exact_mod_cast this
  rw [show (CHARS_PER_TOKEN : ℚ) = ((4 : ℕ) : ℚ) from rfl, h4]
  have he : estimateTokens text = text.length / 4 + 6590 := rfl
  rw [he]
  simp only [MAX_OUTPUT_TOKENS]
  push_cast
  ring

/-- C9, confirmed: the response's `total_tokens` equals the sum of
`tokens_used` over the `RecordResult`s in its `results` list, and a record's
`tokens_used` equals the sum of the `Total_tokens` values of its rule
executions' findings (an error finding has no `Total_tokens`, counting 0). -/
theorem C9_token_totals (outcomes : List RecordOutcome) (record : DataItem)
    (rules : List (String × List String × RuleCall)) :
    (processAllRecords outcomes).totalTokens
      = ((processAllRecords outcomes).results.map (fun r => r.tokensUsed)).sum ∧
    (processRecordRules record rules).tokensUsed
      = (rules.map (fun r =>
          tokensOf (processSingleRule record r.1 r.2.1 r.2.2).2.1)).sum := by
  constructor
  · simpa [processAllRecords] using sumRecordTokens_eq outcomes
  · rw [processRecordRules_tokens]
    congr 1
    exact List.map_congr_left
      (fun r _ => processSingleRule_tokens_eq record r.1 r.2.1 r.2.2)

/-- C10, confirmed: `response_parser` is total — on every string it returns a
parsed value or `None` — and the enumerated failure modes all map to `None`:
empty input, whitespace-only input, a fenced block whose content is not JSON,
an unbalanced bracket prefix, and plain prose. -/
theorem C10_parser_total :
    (∀ s : String, responseParser s = none ∨ ∃ v, responseParser s = some v) ∧
    responseParser "" = none ∧
    responseParser " \t\n " = none ∧
    responseParser "```json\nnot json\n```" = none ∧
    responseParser "\x7b\"violations\": true, \"response\":" = none ∧
    responseParser "This is not JSON at all" = none := by
  refine ⟨fun s => ?_, rfl, rfl, rfl, rfl, rfl⟩
  cases responseParser s with
  | none => exact Or.inl rfl
  | some v => exact Or.inr ⟨v, rfl⟩

set_option maxRecDepth 8000 in
/-- C1, counterexample: with rule `FAIR` raising and rule `COMP` returning a
violation, `process_single_rule` does build the error finding with zero
tokens, but the response's entry for `FAIR` on the record is `null` — not a
`RuleFinding` carrying an `error` string, as the claim asserts — because the
null-collapse in `process_record` sees all its column lists empty. The other
rule's entry survives and the job succeeds. -/
theorem C1_counterexample :
    processSingleRule exRecord "FAIR" ["Remarks"] (.raises "boom")
        = ("FAIR", errorFinding "boom", 0) ∧
    ((processRecordRules exRecord exRules).ruleEntries.find?
        (fun p => p.1 == "FAIR")) = some ("FAIR", none) ∧
    ((processRecordRules exRecord exRules).ruleEntries.find?
        (fun p => p.1 == "COMP")).isSome = true ∧
    (processAllRecords [.ok (processRecordRules exRecord exRules)]).ok = 200 := by
  exact ⟨rfl, rfl, rfl, rfl⟩

/-- C1, amended: when a `(record, rule)` call raises or its model output
cannot yield a `result` mapping, the executor returns the error finding (all
columns empty, an `error` string, zero tokens), but the scheduler's
null-collapse then replaces that rule's entry with `null` in the response;
the record's other rules still complete and produce their own entries, and
the job succeeds. -/
theorem C1_amended (record : DataItem) (rules : List (String × List String × RuleCall))
    (rid : String) (cols : List String) (call : RuleCall) (msg : String)
    (hfail : processSingleRule record rid cols call = (pyUpper rid, errorFinding msg, 0))
    (hmem : (rid, cols, call) ∈ rules)
    (hnodup : (rules.map (fun r => pyUpper r.1)).Nodup) :
    (pyUpper rid, (none : Option PyDict)) ∈ (processRecordRules record rules).ruleEntries ∧
    (processRecordRules record rules).ruleEntries
      = rules.map (fun r =>
          (pyUpper r.1, nullCollapse (processSingleRule record r.1 r.2.1 r.2.2).2.1)) ∧
    (processRecordRules record rules).tokensUsed
      = (rules.map (fun r => (processSingleRule record r.1 r.2.1 r.2.2).2.2)).sum ∧
    (processAllRecords [RecordOutcome.ok (processRecordRules record rules)]).ok = 200 := by
  have hent := processRecordRules_entries record rules hnodup
  refine ⟨?_, hent, processRecordRules_tokens record rules, rfl⟩
  rw [hent]
  have hx : (pyUpper rid, (none : Option PyDict))
      = (fun r : String × List String × RuleCall =>
          (pyUpper r.1, nullCollapse (processSingleRule record r.1 r.2.1 r.2.2).2.1))
        (rid, cols, call) := by
    simp only [hfail, nullCollapse_errorFinding]
  rw [hx]
  exact List.mem_map_of_mem _ hmem

/-- Witness for the amended C1 at the concrete two-rule workload. -/
theorem C1_amended_witness :
    (pyUpper "FAIR", (none : Option PyDict))
      ∈ (processRecordRules exRecord exRules).ruleEntries := by
  exact (C1_amended exRecord exRules "FAIR" ["Remarks"] (.raises "boom") "boom" rfl
    (by simp [exRules]) (by decide)).1

/-! ## Lemmas about the executor's column mapping -/

theorem dictLookup_none_notMem {k : List Char} {d : PyDict}
    (h : dictLookup k d = none) : k ∉ dictKeys d := by
  induction d with
  | nil => simp [dictKeys]
  | cons p rest ih =>
    simp only [dictLookup] at h
    by_cases he : p.1 == k
    · simp [he] at h
    · simp only [if_neg he] at h
      simp only [dictKeys, List.map_cons, List.mem_cons]
      rintro (rfl | hk)
      · exact he (by simp)
      · exact ih h (by simpa [dictKeys] using hk)

theorem mem_dictKeys_erase {k x : List Char} {d : PyDict}
    (hx : x ∈ dictKeys (dictErase k d)) : x ∈ dictKeys d ∧ x ≠ k := by
  simp only [dictKeys, dictErase, List.mem_map, List.mem_filter] at hx
  obtain ⟨p, ⟨hp, hpk⟩, rfl⟩ := hx
  refine ⟨List.mem_map_of_mem _ hp, ?_⟩
  simpa using hpk

theorem mem_dictKeys_pop {k x : List Char} {d : PyDict} {dflt : PyJson}
    (hx : x ∈ dictKeys (dictPop k d dflt).2) : x ∈ dictKeys d ∧ x ≠ k := by
  unfold dictPop at hx
  cases h : dictLookup k d with
  | some v =>
    rw [h] at hx
    exact mem_dictKeys_erase hx
  | none =>
    rw [h] at hx
    exact ⟨hx, fun he => dictLookup_none_notMem h (he ▸ hx)⟩

theorem mem_dictKeys_dictSet {k x : List Char} {v : PyJson} {d : PyDict}
    (hx : x ∈ dictKeys (dictSet k v d)) : x = k ∨ x ∈ dictKeys d := by
  induction d with
  | nil => simpa [dictSet, dictKeys] using hx
  | cons p rest ih =>
    by_cases he : p.1 == k
    · simp only [dictSet, if_pos he, dictKeys, List.map_cons, List.mem_cons] at hx ⊢
      rcases hx with rfl | hx
      · exact Or.inl rfl
      · exact Or.inr (Or.inr hx)
    · simp only [dictSet, if_neg he, dictKeys, List.map_cons, List.mem_cons] at hx ⊢
      rcases hx with rfl | hx
      · exact Or.inr (Or.inl rfl)
      · rcases ih (by simpa [dictKeys] using hx) with h | h
        · exact Or.inl h
        · exact Or.inr (Or.inr (by simpa [dictKeys] using h))

/-- Invariant of the executor's mapping loop: if every key of the working dict
is either a still-unprocessed source key or already satisfies `Q`, and each
target is only inserted when its input is non-empty (and then satisfies `Q`),
then every key of the final dict satisfies `Q`. -/
theorem foldSteps_keys (fv : FieldValues) (Q : List Char → Prop) :
    ∀ (maps : List (List Char × List Char)) (d : PyDict),
      (∀ k ∈ dictKeys d, k ∈ maps.map Prod.fst ∨ Q k) →
      (∀ m ∈ maps, fv.get m.1 ≠ "" → Q m.2) →
      ∀ k ∈ dictKeys (maps.foldl (applyFieldStep fv) d), Q k := by
  intro maps
  induction maps with
  | nil =>
    intro d hd _ k hk
    rcases hd k (by simpa using hk) with h | h
    · simp at h
    · exact h
  | cons m rest ih =>
    intro d hd hQ k hk
    simp only [List.foldl_cons] at hk
    refine ih (applyFieldStep fv d m) ?_
      (fun m' hm' => hQ m' (List.mem_cons_of_mem _ hm')) k hk
    intro x hx
    have hQm : fv.get m.1 ≠ "" → Q m.2 := hQ m (List.mem_cons_self ..)
    have hpop : x ∈ dictKeys (dictPop m.1 d (.arr [])).2 → x ∈ rest.map Prod.fst ∨ Q x := by
      intro hp
      obtain ⟨hmem, hne⟩ := mem_dictKeys_pop hp
      rcases hd x hmem with h | h
      · simp only [List.map_cons, List.mem_cons] at h
        rcases h with h | h
        · exact absurd h hne
        · exact Or.inl h
      · exact Or.inr h
    unfold applyFieldStep at hx
    by_cases ht : pyTruthy (dictPop m.1 d (.arr [])).1
    · rw [if_pos ht] at hx
      by_cases hi : fv.get m.1 == ""
      · rw [if_pos hi] at hx
        exact hpop hx
      · rw [if_neg hi] at hx
        rcases mem_dictKeys_dictSet hx with rfl | hx
        · exact Or.inr (hQm (by simpa using hi))
        · exact hpop hx
    · rw [if_neg ht] at hx
      by_cases hi : fv.get m.1 == ""
      · rw [if_pos hi] at hx
        exact hpop hx
      · rw [if_neg hi] at hx
        rcases mem_dictKeys_dictSet hx with rfl | hx
        · exact Or.inr (hQm (by simpa using hi))
        · exact hpop hx

/-- A guarded selection that is non-empty was selected and non-empty. -/
theorem sel_case (b : Bool) (v : String) (hne : (if b then v else "") ≠ "") :
    b = true ∧ v ≠ "" := by
  by_cases hb : b = true
  · exact ⟨hb, by simpa [hb] using hne⟩
  · rw [if_neg hb] at hne
    exact absurd rfl hne

/-- Each executor input equals the selected record field: non-empty means the
column was selected and non-empty on the record. -/
theorem selectInputs_get_spec (record : DataItem) (columns : List String) :
    ∀ m ∈ fieldMappings,
      (selectInputs record columns).get m.1 ≠ "" →
      ∃ api : String, m.2 = api.data ∧ columns.contains api = true ∧
        recordField record api ≠ "" := by
  intro m hm hne
  simp only [fieldMappings, List.mem_cons, List.not_mem_nil, or_false] at hm
  rcases hm with rfl | rfl | rfl | rfl | rfl | rfl | rfl | rfl
  · have h := sel_case (columns.contains "Remarks") record.Remarks
      (show (if columns.contains "Remarks" then record.Remarks else "") ≠ "" from hne)
    exact ⟨"Remarks", rfl, h.1,
      by rw [show recordField record "Remarks" = record.Remarks from rfl]; exact h.2⟩
  · have h := sel_case (columns.contains "PrivateRemarks") record.PrivateRemarks
      (show (if columns.contains "PrivateRemarks" then record.PrivateRemarks else "") ≠ "" from hne)
    exact ⟨"PrivateRemarks", rfl, h.1,
      by rw [show recordField record "PrivateRemarks" = record.PrivateRemarks from rfl]; exact h.2⟩
  · have h := sel_case (columns.contains "Directions") record.Directions
      (show (if columns.contains "Directions" then record.Directions else "") ≠ "" from hne)
    exact ⟨"Directions", rfl, h.1,
      by rw [show recordField record "Directions" = record.Directions from rfl]; exact h.2⟩
  · have h := sel_case (columns.contains "ShowingInstructions") record.ShowingInstructions
      (show (if columns.contains "ShowingInstructions" then record.ShowingInstructions else "") ≠ "" from hne)
    exact ⟨"ShowingInstructions", rfl, h.1,
      by rw [show recordField record "ShowingInstructions" = record.ShowingInstructions from rfl]; exact h.2⟩
  · have h := sel_case (columns.contains "ConfidentialRemarks") record.ConfidentialRemarks
      (show (if columns.contains "ConfidentialRemarks" then record.ConfidentialRemarks else "") ≠ "" from hne)
    exact ⟨"ConfidentialRemarks", rfl, h.1,
      by rw [show recordField record "ConfidentialRemarks" = record.ConfidentialRemarks from rfl]; exact h.2⟩
  · have h := sel_case (columns.contains "SupplementRemarks") record.SupplementRemarks
      (show (if columns.contains "SupplementRemarks" then record.SupplementRemarks else "") ≠ "" from hne)
    exact ⟨"SupplementRemarks", rfl, h.1,
      by rw [show recordField record "SupplementRemarks" = record.SupplementRemarks from rfl]; exact h.2⟩
  · have h := sel_case (columns.contains "Concessions") record.Concessions
      (show (if columns.contains "Concessions" then record.Concessions else "") ≠ "" from hne)
    exact ⟨"Concessions", rfl, h.1,
      by rw [show recordField record "Concessions" = record.Concessions from rfl]; exact h.2⟩
  · have h := sel_case (columns.contains "SaleFactors") record.SaleFactors
      (show (if columns.contains "SaleFactors" then record.SaleFactors else "") ≠ "" from hne)
    exact ⟨"SaleFactors", rfl, h.1,
      by rw [show recordField record "SaleFactors" = record.SaleFactors from rfl]; exact h.2⟩

set_option maxRecDepth 8000 in
/-- C5, counterexample: the claim's invariant must hold "for every possible
model output mapping, including outputs whose top-level `result` keys are API
column names such as `Remarks`". With `Remarks` selected but empty on the
record, a model output keyed directly by `Remarks` passes through the mapping
loop untouched, so the response's non-null finding contains the column
`Remarks` although its input field was the empty string. -/
theorem C5_counterexample :
    exRecordEmpty.Remarks = "" ∧
    nullCollapse (processSingleRule exRecordEmpty "FAIR" ["Remarks"]
        (.modelOutput exApiKeyOutput 77)).2.1
      = some [("Remarks".data, .arr [.str "steering language".data]),
              ("Total_tokens".data, .num 77)] := ⟨rfl, rfl⟩

/-- C5, amended: the invariant holds for every model output whose `result`
keys are among the eight internal variable names: every column of the
resulting finding other than `Total_tokens` (and `error`, which the success
path never writes) is an API column that was selected for the rule and whose
record field was a non-empty string. -/
theorem C5_amended (record : DataItem) (columns : List String) (ruleId : String)
    (text : String) (usage : Int) (outer jr : PyDict)
    (hp : responseParser text = some (.obj outer))
    (hr : dictLookup "result".data outer = some (.obj jr))
    (hkeys : ∀ k ∈ dictKeys jr, k ∈ fieldMappings.map Prod.fst) :
    ∀ f, nullCollapse (processSingleRule record ruleId columns
        (.modelOutput text usage)).2.1 = some f →
      ∀ k ∈ dictKeys f, k ≠ "Total_tokens".data →
        ∃ api : String, k = api.data ∧ columns.contains api = true ∧
          recordField record api ≠ "" := by
  intro f hf k hk hknt
  have hexec : ruleExecutorOutput (selectInputs record columns) text usage
      = .ok (dictSet "Total_tokens".data (.num usage)
          (mapResultToColumns (selectInputs record columns) jr)) := by
    unfold ruleExecutorOutput
    rw [hp]
    dsimp only
    rw [hr]
  have hrule : (processSingleRule record ruleId columns (.modelOutput text usage)).2.1
      = dictSet "Total_tokens".data (.num usage)
          (mapResultToColumns (selectInputs record columns) jr) := by
    unfold processSingleRule
    dsimp only
    rw [hexec]
  rw [hrule] at hf
  have hfe : f = dictSet "Total_tokens".data (.num usage)
      (mapResultToColumns (selectInputs record columns) jr) := by
    unfold nullCollapse at hf
    by_cases ha : allEmptyArrays (dictSet "Total_tokens".data (.num usage)
        (mapResultToColumns (selectInputs record columns) jr)) = true
    · rw [if_pos ha] at hf
      cases hf
    · rw [if_neg ha] at hf
      exact (Option.some_inj.mp hf).symm
  subst hfe
  rcases mem_dictKeys_dictSet hk with rfl | hk'
  · exact absurd rfl hknt
  · exact foldSteps_keys (selectInputs record columns)
      (fun k => ∃ api : String, k = api.data ∧ columns.contains api = true ∧
        recordField record api ≠ "")
      fieldMappings jr
      (fun k hkj => Or.inl (hkeys k hkj))
      (fun m hm hne =>
        (selectInputs_get_spec record columns m hm hne).imp
          (fun api h => ⟨h.1, h.2.1, h.2.2⟩))
      k hk'

set_option maxRecDepth 8000 in
/-- Witness for the amended C5 at the stubbed internal-keys model output. -/
theorem C5_amended_witness :
    ∃ api : String, "Remarks".data = api.data ∧
      (["Remarks"] : List String).contains api = true ∧
      recordField exRecord api ≠ "" := by
  have h := C5_amended exRecord ["Remarks"] "FAIR" exCompOutput 55 exOuter exJr
    rfl rfl (by decide)
  exact h [("Remarks".data, .arr [.str "viol1".data]),
           ("Total_tokens".data, .num 55)] rfl "Remarks".data (by decide) (by decide)

/-! ## Case sensitivity of the cache keys (claim C3) -/

theorem charOfNat_toNat {n : Nat} (h : n.isValidChar) : (Char.ofNat n).toNat = n := by
  unfold Char.ofNat
  rw [dif_pos h]
  rfl

theorem charToUpper_idem (c : Char) : c.toUpper.toUpper = c.toUpper := by
  have hdef : ∀ x : Char, x.toUpper
      = if x.toNat ≥ 97 ∧ x.toNat ≤ 122 then Char.ofNat (x.toNat - 32) else x :=
    fun _ => rfl
  by_cases h : c.toNat ≥ 97 ∧ c.toNat ≤ 122
  · have hv : (c.toNat - 32).isValidChar := Or.inl (by omega)
    have ht : (Char.ofNat (c.toNat - 32)).toNat = c.toNat - 32 := charOfNat_toNat hv
    rw [hdef c, if_pos h, hdef (Char.ofNat (c.toNat - 32)), ht, if_neg (by omega)]
  · rw [hdef c, if_neg h, hdef c, if_neg h]

theorem pyUpper_idem (s : String) : pyUpper (pyUpper s) = pyUpper s := by
  unfold pyUpper
  rw [show (String.mk (s.data.map Char.toUpper)).data = s.data.map Char.toUpper from rfl,
      List.map_map]
  exact congrArg String.mk (List.map_congr_left fun c _ => charToUpper_idem c)

/-- One unfolding of the `_get_from_cache` recursion. -/
theorem getFromCacheAux_succ (fuel : Nat) (st : CacheState) (now : ℚ)
    (ruleId mlsId : String) :
    getFromCacheAux (fuel + 1) st now ruleId mlsId =
      match cacheLookup st (pyUpper ruleId, mlsId) with
      | none => (none, st)
      | some v =>
        if st.ttl > 0 ∧ now - stampOf st (pyUpper ruleId, mlsId) > st.ttl then
          (none, cacheEvict st (pyUpper ruleId, mlsId))
        else
          match v with
          | .useDefault => getFromCacheAux fuel st now (pyUpper ruleId) "default"
          | .real d => (some d, st) := rfl

set_option maxRecDepth 16000 in
/-- C3: counterexample. In `exCacheB` the pair `("FAIR", "Miami")` holds the
fresh sentinel recorded at `t = 100` for its first miss (at `t = 350` its age
`250 ≤ 300 = ttl`), and no refresh has evicted it; yet `get_prompt` at
`t = 350`, where the rule's `default` entry has expired, requests the pair's
custom name `FAIR_Miami_violation` from the remote registry again. -/
theorem C3_counterexample :
    cacheLookup exCacheB ("FAIR", "Miami") = some .useDefault ∧
    (350 : ℚ) - stampOf exCacheB ("FAIR", "Miami") ≤ exCacheB.ttl ∧
    (getPrompt exRegistry exCacheB 350 "FAIR" "Miami").2.2
      = ["FAIR_Miami_violation", "FAIR_violation"] := by
  refine ⟨by with_unfolding_all rfl, ?_, by with_unfolding_all rfl⟩
  have h1 : stampOf exCacheB ("FAIR", "Miami") = 100 := by with_unfolding_all rfl
  have h2 : exCacheB.ttl = 300 := by with_unfolding_all rfl
  rw [h1, h2]
  norm_num

/-- C3 (amended): for a pair holding a fresh sentinel, a get causes no
remote-registry request — and returns the rule's default, leaving the cache
untouched — provided the rule's `default` entry is also cached and fresh. (The
source resolves the sentinel through the `default` entry, so when the default
has expired while the sentinel is still fresh the custom name is re-fetched;
the unconditional form of the claim fails, see the counterexample.) -/
theorem C3_amended (reg : Registry) (st : CacheState) (now : ℚ)
    (ruleId mlsId : String) (d : PromptData)
    (hs : cacheLookup st (pyUpper ruleId, mlsId) = some .useDefault)
    (hfresh : now - stampOf st (pyUpper ruleId, mlsId) ≤ st.ttl)
    (hd : cacheLookup st (pyUpper ruleId, "default") = some (.real d))
    (hdfresh : now - stampOf st (pyUpper ruleId, "default") ≤ st.ttl) :
    getPrompt reg st now ruleId mlsId = (some d, st, []) := by
  have h2 : getFromCacheAux 1 st now (pyUpper ruleId) "default" = (some d, st) := by
    rw [show (1 : Nat) = 0 + 1 from rfl, getFromCacheAux_succ, pyUpper_idem, hd]
    dsimp only
    rw [if_neg fun hcon => absurd hcon.2 (not_lt.mpr hdfresh)]
  have h1 : getFromCacheAux 2 st now ruleId mlsId = (some d, st) := by
    rw [show (2 : Nat) = 1 + 1 from rfl, getFromCacheAux_succ, hs]
    dsimp only
    rw [if_neg fun hcon => absurd hcon.2 (not_lt.mpr hfresh)]
    exact h2
  unfold getPrompt getFromCache
  rw [h1]

set_option maxRecDepth 16000 in
theorem C3_amended_witness :
    getPrompt exRegistry exCacheB 200 "FAIR" "Miami" = (some exFairDefault, exCacheB, []) :=
  C3_amended exRegistry exCacheB 200 "FAIR" "Miami" exFairDefault
    (by with_unfolding_all rfl)
    (by have h1 : stampOf exCacheB (pyUpper "FAIR", "Miami") = 100 := by
          with_unfolding_all rfl
        have h2 : exCacheB.ttl = 300 := by with_unfolding_all rfl
        rw [h1, h2]; norm_num)
    (by with_unfolding_all rfl)
    (by have h1 : stampOf exCacheB (pyUpper "FAIR", "default") = 0 := by
          with_unfolding_all rfl
        have h2 : exCacheB.ttl = 300 := by with_unfolding_all rfl
        rw [h1, h2]; norm_num)

set_option maxRecDepth 16000 in
/-- C2: the batch load's returned mapping is a re-read of the cache after
every load finished, not a snapshot of the values observed during the batch.
Here `("FAIR", "default")` is cached and fresh when the batch's `to_load`
pass observes it at `t1 = 100` (it was stored at `t = 0`, TTL 300), so the
batch does not reload it; the result mapping is then built at `t3 = 350`,
where the entry has expired, and the batch returns `none` for the pair. -/
theorem C2_failing_trace :
    (getFromCache exCacheA 100 "FAIR" "default").1 = some exFairDefault ∧
    batchLookup
      (loadBatchPrompts exRegistry exCacheA
        [("FAIR", "default"), ("COMP", "default")] 100 150 350)
      ("FAIR", "default") = none :=
  ⟨by with_unfolding_all rfl, by with_unfolding_all rfl⟩

/-! ## Safe concurrency (claim C7) -/

theorem specBase_eq_code (p : ℚ) :
    (if p > HIGH_BUDGET_THRESHOLD then MAX_CONCURRENCY
     else if p > MEDIUM_BUDGET_THRESHOLD then
       pyTrunc ((MIN_CONCURRENCY : ℚ) +
         (p - MEDIUM_BUDGET_THRESHOLD) /
           (HIGH_BUDGET_THRESHOLD - MEDIUM_BUDGET_THRESHOLD) *
         ((MAX_CONCURRENCY : ℚ) - (MIN_CONCURRENCY : ℚ)))
     else if p > LOW_BUDGET_THRESHOLD then MIN_CONCURRENCY
     else max 1 (pyFloorDiv MIN_CONCURRENCY 2)) = specBaseConcurrency p := by
  have h1 : HIGH_BUDGET_THRESHOLD = 1 / 2 := by norm_num [HIGH_BUDGET_THRESHOLD]
  have h2 : MEDIUM_BUDGET_THRESHOLD = 1 / 5 := by norm_num [MEDIUM_BUDGET_THRESHOLD]
  have h3 : LOW_BUDGET_THRESHOLD = 1 / 10 := by norm_num [LOW_BUDGET_THRESHOLD]
  have h4 : HIGH_BUDGET_THRESHOLD - MEDIUM_BUDGET_THRESHOLD = 3 / 10 := by
    rw [h1, h2]; norm_num
  have h5 : max 1 (pyFloorDiv MIN_CONCURRENCY 2) = max 1 ⌊(MIN_CONCURRENCY : ℚ) / 2⌋ := by
    have ha : pyFloorDiv MIN_CONCURRENCY 2 = 5 := by decide
    have hb : ⌊(MIN_CONCURRENCY : ℚ) / 2⌋ = 5 := by norm_num [MIN_CONCURRENCY]
    rw [ha, hb]
  rw [h4, h1, h2, h3, h5]
  unfold specBaseConcurrency
  rfl

theorem specBase_range (p : ℚ) :
    1 ≤ specBaseConcurrency p ∧ specBaseConcurrency p ≤ MAX_CONCURRENCY := by
  unfold specBaseConcurrency
  have hmin : ((MIN_CONCURRENCY : Int) : ℚ) = 10 := by norm_num [MIN_CONCURRENCY]
  have hmax : ((MAX_CONCURRENCY : Int) : ℚ) = 200 := by norm_num [MAX_CONCURRENCY]
  split_ifs with h1 h2 h3
  · exact ⟨by norm_num [MAX_CONCURRENCY], le_refl _⟩
  · rw [hmin, hmax]
    have hr0 : (0 : ℚ) < (p - 1 / 5) / (3 / 10) :=
      div_pos (by linarith [h2]) (by norm_num)
    have hr1 : (p - 1 / 5) / (3 / 10) ≤ 1 := by
      rw [div_le_one (by norm_num : (0 : ℚ) < 3 / 10)]
      linarith [not_lt.mp h1]
    have hq1 : (10 : ℚ) < 10 + (p - 1 / 5) / (3 / 10) * (200 - 10) := by
      have := mul_pos hr0 (by norm_num : (0 : ℚ) < 200 - 10)
      linarith
    have hq2 : (10 : ℚ) + (p - 1 / 5) / (3 / 10) * (200 - 10) ≤ 200 := by
      have := mul_le_mul_of_nonneg_right hr1 (by norm_num : (0 : ℚ) ≤ 200 - 10)
      linarith
    unfold pyTrunc
    rw [if_pos (by linarith : (0 : ℚ) ≤ 10 + (p - 1 / 5) / (3 / 10) * (200 - 10))]
    constructor
    · exact Int.le_floor.mpr (by push_cast; linarith)
    · have hf : (((⌊((10 : ℚ) + (p - 1 / 5) / (3 / 10) * (200 - 10))⌋ : Int)) : ℚ) ≤
          (10 : ℚ) + (p - 1 / 5) / (3 / 10) * (200 - 10) := Int.floor_le _
      have : ((⌊((10 : ℚ) + (p - 1 / 5) / (3 / 10) * (200 - 10))⌋ : Int) : ℚ) ≤ 200 := by
        linarith
      rw [show MAX_CONCURRENCY = (200 : Int) from rfl]
      exact_mod_cast this
  · exact ⟨by norm_num [MIN_CONCURRENCY], by norm_num [MIN_CONCURRENCY, MAX_CONCURRENCY]⟩
  · have hb : ⌊(MIN_CONCURRENCY : ℚ) / 2⌋ = 5 := by norm_num [MIN_CONCURRENCY]
    rw [hb]
    exact ⟨by norm_num, by norm_num [MAX_CONCURRENCY]⟩

/-- C7: the safe-concurrency query. With no token headers it returns
`default_concurrency` (50) and leaves the state untouched; once both token
headers are observed (a reachable header carries a positive limit — a zero
limit would raise `ZeroDivisionError` in the source) it returns the spec's
piecewise value for `p = remaining_tokens / token_limit` — `max_concurrency`
above 50 %, the truncated linear interpolation with ratio `(p − 0.20)/0.30`
between 20 % and 50 %, `min_concurrency` between 10 % and 20 %, and
`max(1, floor(min_concurrency / 2))` at or below 10 % — clamped to at most 5
when fewer than 10 % of requests remain, stores the chosen value as
`current_concurrency`, and the result always lies in `[1, max_concurrency]`. -/
theorem C7_safe_concurrency (st : LimiterState)
    (htl : ∀ tl, st.tokenLimit = some tl → 0 < tl)
    (hrl : ∀ rl, st.requestLimit = some rl → 0 < rl) :
    (DEFAULT_CONCURRENCY = 50 ∧
      ((st.remainingTokens = none ∨ st.tokenLimit = none) →
        getSafeConcurrency st = (DEFAULT_CONCURRENCY, st))) ∧
    ∀ rt tl, st.remainingTokens = some rt → st.tokenLimit = some tl →
      getSafeConcurrency st
        = (specSafeConc st rt tl, { st with currentConcurrency := specSafeConc st rt tl }) ∧
      1 ≤ specSafeConc st rt tl ∧ specSafeConc st rt tl ≤ MAX_CONCURRENCY := by
  refine ⟨⟨rfl, ?_⟩, ?_⟩
  · intro h
    unfold getSafeConcurrency
    rcases h with h | h
    · rw [h]
    · rw [h]
      cases st.remainingTokens <;> rfl
  · intro rt tl hrt htl'
    refine ⟨?_, ?_⟩
    · unfold getSafeConcurrency specSafeConc specRequestClamp
      rw [hrt, htl']
      dsimp only
      rw [specBase_eq_code, show (10 : ℚ) / 100 = 1 / 10 from by norm_num]
    · obtain ⟨hb1, hb2⟩ := specBase_range ((rt : ℚ) / (tl : ℚ))
      unfold specSafeConc specRequestClamp
      cases st.remainingRequests <;> cases st.requestLimit <;> dsimp only
      · exact ⟨hb1, hb2⟩
      · exact ⟨hb1, hb2⟩
      · exact ⟨hb1, hb2⟩
      · split_ifs
        · exact ⟨le_min hb1 (by norm_num), le_trans (min_le_left _ _) hb2⟩
        · exact ⟨hb1, hb2⟩

theorem C7_safe_concurrency_witness :
    getSafeConcurrency exLimiter
      = (specSafeConc exLimiter 300 1000,
         { exLimiter with currentConcurrency := specSafeConc exLimiter 300 1000 }) ∧
    1 ≤ specSafeConc exLimiter 300 1000 ∧ specSafeConc exLimiter 300 1000 ≤ MAX_CONCURRENCY :=
  (C7_safe_concurrency exLimiter
    (by intro tl h
        have h' : (1000 : Int) = tl := Option.some.inj h
        omega)
    (by intro rl h
        have h' : (1000 : Int) = rl := Option.some.inj h
        omega)).2 300 1000 rfl rfl

/-! ## Retry loop (claim C6) -/

theorem retryAux_retrySpec {α : Type} (calls : Nat → CallOutcome α) (jitter : Nat → ℚ)
    (maxRetries : Nat) :
    ∀ fuel attempt, 1 ≤ fuel → fuel + attempt = maxRetries + 1 →
      RetrySpec calls jitter maxRetries attempt
        (retryAux calls jitter maxRetries fuel attempt) := by
  intro fuel
  induction fuel with
  | zero => intro attempt h1 _; omega
  | succ fuel ih =>
    intro attempt _ hsum
    unfold RetrySpec retryAux
    cases hc : calls attempt with
    | ok v =>
      dsimp only
      refine ⟨le_refl 1, by omega, rfl, fun i hi => absurd hi (by omega), ?_, ?_⟩
      · intro v' hv'
        rw [Nat.add_zero, hc] at hv'
        cases hv'
        rfl
      · intro e' he'
        rw [Nat.add_zero, hc] at he'
        exact CallOutcome.noConfusion he'
    | err e =>
      cases hr : errRetryable e with
      | true =>
        dsimp only
        rw [if_pos hr]
        by_cases ha : (attempt == maxRetries) = true
        · rw [if_pos ha]
          have ha' : attempt = maxRetries := beq_iff_eq.mp ha
          dsimp only
          refine ⟨le_refl 1, by omega, rfl, fun i hi => absurd hi (by omega), ?_, ?_⟩
          · intro v' hv'
            rw [Nat.add_zero, hc] at hv'
            exact CallOutcome.noConfusion hv'
          · intro e' he'
            rw [Nat.add_zero, hc] at he'
            cases he'
            exact ⟨rfl, fun _ => by omega⟩
        · rw [if_neg ha]
          dsimp only
          have ha' : attempt ≠ maxRetries := fun h => ha (by simp [h])
          have hfuel : 1 ≤ fuel := by omega
          obtain ⟨ih1, ih2, ih3, ih4, ih5, ih6⟩ :=
            ih (attempt + 1) hfuel (by omega)
          refine ⟨by omega, by omega, ?_, ?_, ?_, ?_⟩
          · rw [Nat.add_sub_cancel]
            obtain ⟨m, hm⟩ : ∃ m,
                (retryAux calls jitter maxRetries fuel (attempt + 1)).invocations
                  = m + 1 :=
              ⟨(retryAux calls jitter maxRetries fuel (attempt + 1)).invocations - 1,
               by omega⟩
            rw [hm, List.range_succ_eq_map, List.map_cons, List.map_map]
            rw [ih3, hm, Nat.add_sub_cancel]
            refine congrArg₂ List.cons (by rw [Nat.add_zero]) ?_
            exact List.map_congr_left fun i _ => by
              show retryDelay (attempt + 1 + i) (jitter (attempt + 1 + i))
                = retryDelay (attempt + (i + 1)) (jitter (attempt + (i + 1)))
              rw [show attempt + 1 + i = attempt + (i + 1) from by omega]
          · intro i hi
            cases i with
            | zero => exact ⟨e, by rw [Nat.add_zero]; exact hc, hr⟩
            | succ j =>
              have hj : j <
                  (retryAux calls jitter maxRetries fuel (attempt + 1)).invocations - 1 := by
                omega
              obtain ⟨e', he', hre'⟩ := ih4 j hj
              exact ⟨e', by rw [show attempt + (j + 1) = attempt + 1 + j from by omega];
                            exact he', hre'⟩
          · intro v' hv'
            rw [show attempt +
                  ((retryAux calls jitter maxRetries fuel (attempt + 1)).invocations + 1 - 1)
                = attempt + 1 +
                  ((retryAux calls jitter maxRetries fuel (attempt + 1)).invocations - 1)
                from by omega] at hv'
            exact ih5 v' hv'
          · intro e' he'
            rw [show attempt +
                  ((retryAux calls jitter maxRetries fuel (attempt + 1)).invocations + 1 - 1)
                = attempt + 1 +
                  ((retryAux calls jitter maxRetries fuel (attempt + 1)).invocations - 1)
                from by omega] at he'
            obtain ⟨hres, hexh⟩ := ih6 e' he'
            exact ⟨hres, fun hre => by have := hexh hre; omega⟩
      | false =>
        dsimp only
        rw [if_neg (by simp [hr])]
        dsimp only
        refine ⟨le_refl 1, by omega, rfl, fun i hi => absurd hi (by omega), ?_, ?_⟩
        · intro v' hv'
          rw [Nat.add_zero, hc] at hv'
          exact CallOutcome.noConfusion hv'
        · intro e' he'
          rw [Nat.add_zero, hc] at he'
          cases he'
          exact ⟨rfl, fun hre => absurd hre (by rw [hr]; exact Bool.false_ne_true)⟩

/-- C6: one run of `retry_with_backoff`. The wrapped call runs at most
`max_retries + 1` times; every invocation before the last failed with an
error the handler's ladder retries, each retry sleeping
`min(base_delay · 2^attempt, max_delay) + jitter(attempt)`; a final success
is returned; a final error is re-raised — immediately for a non-retryable
one, and for a retryable one only with the attempts exhausted. On statuses
reachable over HTTP the ladder's test agrees exactly with the spec's table:
rate limit, timeout, connection/OS error, upstream 500/502/503/504, and
upstream error with no status; any other status is raised at once. -/
theorem C6_retry_backoff {α : Type} (maxRetries : Nat) (calls : Nat → CallOutcome α)
    (jitter : Nat → ℚ) :
    RetrySpec calls jitter maxRetries 0 (retryWithBackoff maxRetries calls jitter) ∧
    (∀ e, httpStatusOk e → (errRetryable e = true ↔ specRetryable e)) ∧
    (∀ attempt j, retryDelay attempt j
      = min (BASE_RETRY_DELAY * 2 ^ attempt) MAX_RETRY_DELAY + j) := by
  refine ⟨retryAux_retrySpec calls jitter maxRetries (maxRetries + 1) 0 (by omega)
      (by omega), ?_, fun _ _ => rfl⟩
  intro e he
  cases e with
  | rateLimit => simp [errRetryable, specRetryable]
  | timeoutErr => simp [errRetryable, specRetryable]
  | network => simp [errRetryable, specRetryable]
  | api s =>
    cases s with
    | none => simp [errRetryable, specRetryable]
    | some v =>
      have hv : 100 ≤ v := he
      have h0 : (v == 0) = false := by
        simp only [beq_eq_false_iff_ne, ne_eq]
        omega
      constructor
      · intro h
        simp only [errRetryable, h0] at h
        simp only [Bool.false_eq_true, if_false, Bool.or_eq_true, beq_iff_eq] at h
        exact Or.inr (Or.inr (Or.inr (Or.inr ⟨v, rfl, by tauto⟩)))
      · intro h
        rcases h with h | h | h | h | ⟨s', hs', hcase⟩
        · exact absurd h (by simp)
        · exact absurd h (by simp)
        · exact absurd h (by simp)
        · exact absurd h (by simp)
        · cases hs'
          simp only [errRetryable, h0]
          simp only [Bool.false_eq_true, if_false, Bool.or_eq_true, beq_iff_eq]
          tauto
  | other =>
    simp only [errRetryable, specRetryable, Bool.false_eq_true, false_iff]
    rintro (h | h | h | h | ⟨s', hs', _⟩)
    · exact ApiErr.noConfusion h
    · exact ApiErr.noConfusion h
    · exact ApiErr.noConfusion h
    · exact ApiErr.noConfusion h
    · exact ApiErr.noConfusion hs'

/-! ## Round-tripping the executor-accepted mappings (claim C8) -/

theorem skipWs_cons_of_not_space {c : Char} (h : pyIsSpace c = false) (r : List Char) :
    skipWs (c :: r) = c :: r := by
  unfold skipWs
  simp [h]

theorem skipWs_space (r : List Char) : skipWs (' ' :: r) = skipWs r := rfl

theorem pStrBody_close (acc rest : List Char) :
    pStrBody acc ('"' :: rest) = some (acc.reverse, rest) := by
  simp [pStrBody]

theorem pStrBody_esc_quote (acc X : List Char) :
    pStrBody acc ('\\' :: '"' :: X) = pStrBody ('"' :: acc) X := by
  simp [pStrBody, unescapeChar]

theorem pStrBody_esc_back (acc X : List Char) :
    pStrBody acc ('\\' :: '\\' :: X) = pStrBody ('\\' :: acc) X := by
  simp [pStrBody, unescapeChar]

theorem pStrBody_plain {c : Char} (hq : c ≠ '"') (hb : c ≠ '\\') (acc : List Char)
    (d : Char) (X : List Char) :
    pStrBody acc (c :: d :: X) = pStrBody (c :: acc) (d :: X) := by
  rw [pStrBody.eq_def]
  split
  all_goals simp_all

theorem pyEscapeChar_plain {c : Char} (hq : c ≠ '"') (hb : c ≠ '\\')
    (h1 : 32 ≤ c.toNat) (h2 : c.toNat ≤ 126) : pyEscapeChar c = [c] := by
  unfold pyEscapeChar
  rw [if_neg (by simp [hq]), if_neg (by simp [hb]),
      if_neg (by simp; intro h; rw [h] at h1; exact absurd h1 (by decide)),
      if_neg (by simp; intro h; rw [h] at h1; exact absurd h1 (by decide)),
      if_neg (by simp; intro h; rw [h] at h1; exact absurd h1 (by decide)),
      if_neg (by simp; intro h; rw [h] at h1; exact absurd h1 (by decide)),
      if_neg (by simp; intro h; rw [h] at h1; exact absurd h1 (by decide)),
      if_neg (by omega), if_pos (by omega)]

theorem pStrBody_dumps (s : List Char) (hs : ∀ c ∈ s, 32 ≤ c.toNat ∧ c.toNat ≤ 126)
    (acc rest : List Char) :
    pStrBody acc (s.flatMap pyEscapeChar ++ ('"' :: rest))
      = some (acc.reverse ++ s, rest) := by
  induction s generalizing acc with
  | nil => simp [pStrBody_close]
  | cons c t ih =>
    obtain ⟨h1, h2⟩ := hs c (by simp)
    have ht : ∀ x ∈ t, 32 ≤ x.toNat ∧ x.toNat ≤ 126 := fun x hx => hs x (by simp [hx])
    rw [List.flatMap_cons]
    by_cases hq : c = '"'
    · subst hq
      rw [show pyEscapeChar '"' = ['\\', '"'] from rfl]
      rw [List.append_assoc, List.cons_append, List.cons_append, List.nil_append,
          pStrBody_esc_quote, ih ht]
      simp
    · by_cases hb : c = '\\'
      · subst hb
        rw [show pyEscapeChar '\\' = ['\\', '\\'] from rfl]
        rw [List.append_assoc, List.cons_append, List.cons_append, List.nil_append,
            pStrBody_esc_back, ih ht]
        simp
      · rw [pyEscapeChar_plain hq hb h1 h2]
        simp only [List.cons_append, List.nil_append]
        obtain ⟨d, X, hdx⟩ : ∃ d X, t.flatMap pyEscapeChar ++ ('"' :: rest) = d :: X := by
          cases hfl : t.flatMap pyEscapeChar with
          | nil => exact ⟨'"', rest, by simp⟩
          | cons d X' => exact ⟨d, X' ++ ('"' :: rest), by simp⟩
        rw [hdx, pStrBody_plain hq hb, ← hdx, ih ht]
        simp

theorem pVal_dumpsStr (f : Nat) (s rest : List Char)
    (hs : ∀ c ∈ s, 32 ≤ c.toNat ∧ c.toNat ≤ 126) :
    pVal (f + 1) (dumpsStr s ++ rest) = some (.str s, rest) := by
  have h1 : dumpsStr s ++ rest = '"' :: (s.flatMap pyEscapeChar ++ ('"' :: rest)) := by
    simp [dumpsStr]
  rw [h1]
  simp only [pVal]
  rw [skipWs_cons_of_not_space (by decide)]
  simp [pStrBody_dumps s hs [] rest]

theorem pVal_space (f : Nat) (r : List Char) : pVal f (' ' :: r) = pVal f r := by
  cases f with
  | zero => simp [pVal]
  | succ f =>
    simp only [pVal]
    rw [skipWs_space]

theorem two_le_dumpsStr_length (s : List Char) : 2 ≤ (dumpsStr s).length := by
  simp [dumpsStr]

theorem pElems_space (f : Nat) (r : List Char) : pElems f (' ' :: r) = pElems f r := by
  cases f with
  | zero => simp [pElems]
  | succ f =>
    simp only [pElems]
    rw [pVal_space]

theorem pElems_dumps (ss : List (List Char)) :
    ∀ rest fuel, ss ≠ [] →
      (∀ s ∈ ss, ∀ c ∈ s, 32 ≤ c.toNat ∧ c.toNat ≤ 126) →
      (dumpsElems (ss.map PyJson.str)).length ≤ fuel →
      pElems fuel (dumpsElems (ss.map PyJson.str) ++ (']' :: rest))
        = some (ss.map PyJson.str, rest) := by
  induction ss with
  | nil => intro rest fuel hne _ _; exact absurd rfl hne
  | cons x t ih =>
    intro rest fuel _ hp hfuel
    cases t with
    | nil =>
      simp only [List.map_cons, List.map_nil, dumpsElems, pyJsonDumps] at hfuel ⊢
      have h2 := two_le_dumpsStr_length x
      obtain ⟨g, rfl⟩ : ∃ g, fuel = g + 1 + 1 := ⟨fuel - 2, by omega⟩
      simp only [pElems]
      rw [pVal_dumpsStr g x (']' :: rest) (fun c hc => hp x (by simp) c hc)]
      dsimp only
      rw [skipWs_cons_of_not_space (by decide)]
      simp
    | cons y t' =>
      simp only [List.map_cons, dumpsElems, pyJsonDumps] at hfuel ⊢
      have h2 := two_le_dumpsStr_length x
      have hfl : (dumpsStr x).length + 2 +
          (dumpsElems (PyJson.str y :: t'.map PyJson.str)).length ≤ fuel := by
        simp [List.length_append] at hfuel
        omega
      obtain ⟨f, rfl⟩ : ∃ f, fuel = f + 1 := ⟨fuel - 1, by omega⟩
      simp only [pElems]
      simp only [List.append_assoc, List.cons_append]
      obtain ⟨g, rfl⟩ : ∃ g, f = g + 1 := ⟨f - 1, by omega⟩
      rw [pVal_dumpsStr g x _ (fun c hc => hp x (by simp) c hc)]
      dsimp only
      rw [skipWs_cons_of_not_space (by decide)]
      have hE : pElems (g + 1)
          (' ' :: (dumpsElems (PyJson.str y :: t'.map PyJson.str) ++ (']' :: rest)))
          = some (PyJson.str y :: t'.map PyJson.str, rest) := by
        rw [pElems_space]
        have := ih rest (g + 1) (by simp) (fun s hs => hp s (by simp [hs]))
          (by simp only [List.map_cons]; omega)
        simpa using this
      simp [hE]

theorem pVal_dumpsArr (ss : List (List Char)) (rest : List Char) (fuel : Nat)
    (hp : ∀ s ∈ ss, ∀ c ∈ s, 32 ≤ c.toNat ∧ c.toNat ≤ 126)
    (hfuel : (pyJsonDumps (.arr (ss.map PyJson.str))).length ≤ fuel) :
    pVal fuel (pyJsonDumps (.arr (ss.map PyJson.str)) ++ rest)
      = some (.arr (ss.map PyJson.str), rest) := by
  have hlen : (dumpsElems (ss.map PyJson.str)).length + 2 ≤ fuel := by
    simp only [pyJsonDumps, List.length_cons, List.length_append, List.length_singleton]
      at hfuel
    omega
  obtain ⟨f, rfl⟩ : ∃ f, fuel = f + 1 := ⟨fuel - 1, by omega⟩
  simp only [pyJsonDumps, List.cons_append, List.append_assoc, List.singleton_append]
  simp only [pVal]
  rw [skipWs_cons_of_not_space (by decide)]
  cases ss with
  | nil =>
    simp only [List.map_nil, dumpsElems, List.nil_append]
    rw [skipWs_cons_of_not_space (by decide)]
    simp
  | cons x t =>
    obtain ⟨Z, hZ⟩ : ∃ Z, dumpsElems ((x :: t).map PyJson.str) = '"' :: Z := by
      cases t with
      | nil =>
        exact ⟨x.flatMap pyEscapeChar ++ ['"'],
          by simp [dumpsElems, pyJsonDumps, dumpsStr]⟩
      | cons y t' =>
        exact ⟨(x.flatMap pyEscapeChar ++ ['"']) ++
            (',' :: ' ' :: dumpsElems (PyJson.str y :: t'.map PyJson.str)),
          by simp [dumpsElems, pyJsonDumps, dumpsStr]⟩
    rw [hZ, List.cons_append]
    have hP : pElems f ('"' :: (Z ++ (']' :: rest))) = some ((x :: t).map PyJson.str, rest) := by
      rw [show ('"' : Char) :: (Z ++ (']' :: rest)) = ('"' :: Z) ++ (']' :: rest) from by simp,
          ← hZ]
      exact pElems_dumps (x :: t) rest f (by simp) hp (by rw [hZ] at hlen ⊢; omega)
    simp [skipWs, pyIsSpace, hP]

theorem pMembers_space (f : Nat) (r : List Char) :
    pMembers f (' ' :: r) = pMembers f r := by
  cases f with
  | zero => simp [pMembers]
  | succ f =>
    simp only [pMembers]
    rw [skipWs_space]

theorem pMembers_dumpsInner (m : List (List Char × List (List Char))) :
    ∀ rest fuel, m ≠ [] →
      (∀ p ∈ m, (∀ c ∈ p.1, 32 ≤ c.toNat ∧ c.toNat ≤ 126) ∧
        ∀ s ∈ p.2, ∀ c ∈ s, 32 ≤ c.toNat ∧ c.toNat ≤ 126) →
      (dumpsMembers (m.map fun p => (p.1, PyJson.arr (p.2.map PyJson.str)))).length ≤ fuel →
      pMembers fuel
        (dumpsMembers (m.map fun p => (p.1, PyJson.arr (p.2.map PyJson.str))) ++ ('}' :: rest))
        = some (m.map fun p => (p.1, PyJson.arr (p.2.map PyJson.str)), rest) := by
  induction m with
  | nil => intro rest fuel hne _ _; exact absurd rfl hne
  | cons kv t ih =>
    obtain ⟨k, ss⟩ := kv
    intro rest fuel _ hp hfuel
    have hk : ∀ c ∈ k, 32 ≤ c.toNat ∧ c.toNat ≤ 126 := (hp (k, ss) (by simp)).1
    have hss : ∀ s ∈ ss, ∀ c ∈ s, 32 ≤ c.toNat ∧ c.toNat ≤ 126 := (hp (k, ss) (by simp)).2
    have h2 := two_le_dumpsStr_length k
    cases t with
    | nil =>
      simp only [List.map_cons, List.map_nil, dumpsMembers] at hfuel ⊢
      have hlin : (dumpsStr k).length + 2 +
          (pyJsonDumps (PyJson.arr (ss.map PyJson.str))).length ≤ fuel := by
        simp only [List.length_append, List.length_cons] at hfuel
        omega
      obtain ⟨f, rfl⟩ : ∃ f, fuel = f + 1 := ⟨fuel - 1, by omega⟩
      simp only [pMembers]
      simp only [dumpsStr, List.cons_append, List.append_assoc, List.nil_append]
      rw [skipWs_cons_of_not_space (by decide)]
      have hAR : pVal f
          (' ' :: (pyJsonDumps (PyJson.arr (ss.map PyJson.str)) ++ ('}' :: rest)))
          = some (PyJson.arr (ss.map PyJson.str), '}' :: rest) := by
        rw [pVal_space]
        exact pVal_dumpsArr ss ('}' :: rest) f hss (by omega)
      simp [pStrBody_dumps k hk, skipWs, pyIsSpace, hAR]
    | cons q t' =>
      simp only [List.map_cons, dumpsMembers] at hfuel ⊢
      have hlin : (dumpsStr k).length + 4 +
          (pyJsonDumps (PyJson.arr (ss.map PyJson.str))).length +
          (dumpsMembers ((q.1, PyJson.arr (q.2.map PyJson.str)) ::
            t'.map fun p => (p.1, PyJson.arr (p.2.map PyJson.str)))).length ≤ fuel := by
        simp only [List.length_append, List.length_cons] at hfuel
        omega
      obtain ⟨f, rfl⟩ : ∃ f, fuel = f + 1 := ⟨fuel - 1, by omega⟩
      simp only [pMembers]
      simp only [dumpsStr, List.cons_append, List.append_assoc, List.nil_append]
      rw [skipWs_cons_of_not_space (by decide)]
      have hAR : pVal f
          (' ' :: (pyJsonDumps (PyJson.arr (ss.map PyJson.str)) ++
            (',' :: ' ' :: (dumpsMembers ((q.1, PyJson.arr (q.2.map PyJson.str)) ::
              t'.map fun p => (p.1, PyJson.arr (p.2.map PyJson.str))) ++ ('}' :: rest)))))
          = some (PyJson.arr (ss.map PyJson.str),
              ',' :: ' ' :: (dumpsMembers ((q.1, PyJson.arr (q.2.map PyJson.str)) ::
                t'.map fun p => (p.1, PyJson.arr (p.2.map PyJson.str))) ++ ('}' :: rest))) := by
        rw [pVal_space]
        exact pVal_dumpsArr ss _ f hss (by omega)
      have hlenT : (dumpsMembers ((q.1, PyJson.arr (q.2.map PyJson.str)) ::
          t'.map fun p => (p.1, PyJson.arr (p.2.map PyJson.str)))).length ≤ f := by
        omega
      have hNext : pMembers f
          (' ' :: (dumpsMembers ((q.1, PyJson.arr (q.2.map PyJson.str)) ::
            t'.map fun p => (p.1, PyJson.arr (p.2.map PyJson.str))) ++ ('}' :: rest)))
          = some ((q.1, PyJson.arr (q.2.map PyJson.str)) ::
              t'.map fun p => (p.1, PyJson.arr (p.2.map PyJson.str)), rest) := by
        rw [pMembers_space]
        exact ih rest f (by simp) (fun p hp' => hp p (by simp [hp'])) hlenT
      simp [pStrBody_dumps k hk, skipWs, pyIsSpace, hAR, hNext]

theorem pVal_dumpsObjInner (m : List (List Char × List (List Char))) (rest : List Char)
    (fuel : Nat)
    (hp : ∀ p ∈ m, (∀ c ∈ p.1, 32 ≤ c.toNat ∧ c.toNat ≤ 126) ∧
      ∀ s ∈ p.2, ∀ c ∈ s, 32 ≤ c.toNat ∧ c.toNat ≤ 126)
    (hfuel : (pyJsonDumps (PyJson.obj
      (m.map fun p => (p.1, PyJson.arr (p.2.map PyJson.str))))).length ≤ fuel) :
    pVal fuel (pyJsonDumps (PyJson.obj
        (m.map fun p => (p.1, PyJson.arr (p.2.map PyJson.str)))) ++ rest)
      = some (PyJson.obj (m.map fun p => (p.1, PyJson.arr (p.2.map PyJson.str))), rest) := by
  have hlen : (dumpsMembers (m.map fun p => (p.1, PyJson.arr (p.2.map PyJson.str)))).length
      + 2 ≤ fuel := by
    simp only [pyJsonDumps, List.length_cons, List.length_append, List.length_singleton]
      at hfuel
    omega
  obtain ⟨f, rfl⟩ : ∃ f, fuel = f + 1 := ⟨fuel - 1, by omega⟩
  simp only [pyJsonDumps, List.cons_append, List.append_assoc, List.singleton_append]
  simp only [pVal]
  rw [skipWs_cons_of_not_space (by decide)]
  cases m with
  | nil =>
    simp only [List.map_nil, dumpsMembers, List.nil_append]
    rw [skipWs_cons_of_not_space (by decide)]
    simp
  | cons kv t =>
    obtain ⟨k, ss⟩ := kv
    obtain ⟨Z, hZ⟩ : ∃ Z, dumpsMembers (((k, ss) :: t).map fun p =>
        (p.1, PyJson.arr (p.2.map PyJson.str))) = '"' :: Z := by
      cases t with
      | nil =>
        exact ⟨k.flatMap pyEscapeChar ++ ['"'] ++
            (':' :: ' ' :: pyJsonDumps (PyJson.arr (ss.map PyJson.str))),
          by simp [dumpsMembers, dumpsStr]⟩
      | cons q t' =>
        exact ⟨k.flatMap pyEscapeChar ++ ['"'] ++
            (':' :: ' ' :: pyJsonDumps (PyJson.arr (ss.map PyJson.str)) ++
              ',' :: ' ' :: dumpsMembers ((q.1, PyJson.arr (q.2.map PyJson.str)) ::
                t'.map fun p => (p.1, PyJson.arr (p.2.map PyJson.str)))),
          by simp [dumpsMembers, dumpsStr]⟩
    rw [hZ, List.cons_append]
    have hP : pMembers f ('"' :: (Z ++ ('}' :: rest)))
        = some (((k, ss) :: t).map fun p => (p.1, PyJson.arr (p.2.map PyJson.str)), rest) := by
      rw [show ('"' : Char) :: (Z ++ ('}' :: rest)) = ('"' :: Z) ++ ('}' :: rest) from by simp,
          ← hZ]
      exact pMembers_dumpsInner ((k, ss) :: t) rest f (by simp) hp
        (by rw [hZ] at hlen ⊢; omega)
    simp [skipWs, pyIsSpace, hP]

theorem pVal_dumpsObjSingle (k : List Char) (v : PyJson) (rest : List Char) (fuel : Nat)
    (hk : ∀ c ∈ k, 32 ≤ c.toNat ∧ c.toNat ≤ 126)
    (hv : ∀ rest2 g, (pyJsonDumps v).length ≤ g →
      pVal g (pyJsonDumps v ++ rest2) = some (v, rest2))
    (hfuel : (pyJsonDumps (PyJson.obj [(k, v)])).length ≤ fuel) :
    pVal fuel (pyJsonDumps (PyJson.obj [(k, v)]) ++ rest)
      = some (PyJson.obj [(k, v)], rest) := by
  have h2 := two_le_dumpsStr_length k
  have hlen : (dumpsStr k).length + 4 + (pyJsonDumps v).length ≤ fuel := by
    simp only [pyJsonDumps, dumpsMembers, List.length_cons, List.length_append,
      List.length_singleton] at hfuel
    omega
  obtain ⟨f, rfl⟩ : ∃ f, fuel = f + 1 := ⟨fuel - 1, by omega⟩
  simp only [pyJsonDumps, dumpsMembers, List.cons_append, List.append_assoc,
    List.singleton_append, List.nil_append]
  simp only [pVal]
  rw [skipWs_cons_of_not_space (by decide)]
  have hZform : dumpsStr k ++ (':' :: ' ' :: (pyJsonDumps v ++ ('}' :: rest)))
      = '"' :: (k.flatMap pyEscapeChar ++
        ('"' :: (':' :: ' ' :: (pyJsonDumps v ++ ('}' :: rest))))) := by
    simp [dumpsStr]
  have hMem : pMembers f ('"' :: (k.flatMap pyEscapeChar ++
      ('"' :: (':' :: ' ' :: (pyJsonDumps v ++ ('}' :: rest))))))
      = some ([(k, v)], rest) := by
    obtain ⟨g, rfl⟩ : ∃ g, f = g + 1 := ⟨f - 1, by omega⟩
    simp only [pMembers]
    rw [skipWs_cons_of_not_space (by decide)]
    have hv' : pVal g (' ' :: (pyJsonDumps v ++ ('}' :: rest))) = some (v, '}' :: rest) := by
      rw [pVal_space]
      exact hv ('}' :: rest) g (by omega)
    simp [pStrBody_dumps k hk, skipWs, pyIsSpace, hv']
  rw [show dumpsStr k ++ (':' :: ' ' :: (pyJsonDumps v ++ ('}' :: rest)))
      = '"' :: (k.flatMap pyEscapeChar ++
        ('"' :: (':' :: ' ' :: (pyJsonDumps v ++ ('}' :: rest))))) from hZform]
  simp [skipWs, pyIsSpace, hMem]

set_option maxHeartbeats 1000000 in
theorem pVal_dumpsExec (m : List (List Char × List (List Char))) (rest : List Char)
    (fuel : Nat)
    (hp : ∀ p ∈ m, (∀ c ∈ p.1, 32 ≤ c.toNat ∧ c.toNat ≤ 126) ∧
      ∀ s ∈ p.2, ∀ c ∈ s, 32 ≤ c.toNat ∧ c.toNat ≤ 126)
    (hfuel : (pyJsonDumps (mkExecMapping m)).length ≤ fuel) :
    pVal fuel (pyJsonDumps (mkExecMapping m) ++ rest) = some (mkExecMapping m, rest) := by
  have hro : ∀ c ∈ "result".data, 32 ≤ c.toNat ∧ c.toNat ≤ 126 := by decide
  unfold mkExecMapping at hfuel ⊢
  exact pVal_dumpsObjSingle "result".data
    (PyJson.obj (m.map fun p => (p.1, PyJson.arr (p.2.map PyJson.str)))) rest fuel hro
    (fun rest2 g hg => pVal_dumpsObjInner m rest2 g hp hg) hfuel

theorem jsonLoadsL_dumpsExec (m : List (List Char × List (List Char)))
    (hp : ∀ p ∈ m, (∀ c ∈ p.1, 32 ≤ c.toNat ∧ c.toNat ≤ 126) ∧
      ∀ s ∈ p.2, ∀ c ∈ s, 32 ≤ c.toNat ∧ c.toNat ≤ 126) :
    jsonLoadsL (pyJsonDumps (mkExecMapping m)) = some (mkExecMapping m) := by
  unfold jsonLoadsL
  have h := pVal_dumpsExec m [] ((pyJsonDumps (mkExecMapping m)).length + 1) hp (by omega)
  rw [List.append_nil] at h
  rw [h]
  simp [skipWs]

theorem safeChar_printable {c : Char} (h : safeChar c = true) :
    32 ≤ c.toNat ∧ c.toNat ≤ 126 := by
  simp [safeChar, printableChar, Bool.and_eq_true] at h
  tauto

theorem safeChar_not {c : Char} (h : safeChar c = true) :
    c ≠ '{' ∧ c ≠ '}' ∧ c ≠ '[' ∧ c ≠ ']' ∧ c ≠ btick := by
  simp [safeChar, printableChar, Bool.and_eq_true] at h
  tauto

theorem pyEscapeChar_safe {c : Char} (h : safeChar c = true) :
    ∀ d ∈ pyEscapeChar c, d ≠ '{' ∧ d ≠ '}' ∧ d ≠ btick := by
  obtain ⟨h1, h2⟩ := safeChar_printable h
  obtain ⟨hb1, hb2, _, _, hbt⟩ := safeChar_not h
  by_cases hq : c = '"'
  · subst hq
    intro d hd
    rw [show pyEscapeChar '"' = ['\\', '"'] from rfl] at hd
    simp at hd
    rcases hd with rfl | rfl
    · exact ⟨by decide, by decide, by decide⟩
    · exact ⟨by decide, by decide, by decide⟩
  · by_cases hbk : c = '\\'
    · subst hbk
      intro d hd
      rw [show pyEscapeChar '\\' = ['\\', '\\'] from rfl] at hd
      simp at hd
      subst hd
      exact ⟨by decide, by decide, by decide⟩
    · rw [pyEscapeChar_plain hq hbk h1 h2]
      intro d hd
      simp at hd
      subst hd
      exact ⟨hb1, hb2, hbt⟩

theorem dumpsStr_safe {s : List Char} (hs : ∀ c ∈ s, safeChar c = true) :
    ∀ d ∈ dumpsStr s, d ≠ '{' ∧ d ≠ '}' ∧ d ≠ btick := by
  intro d hd
  rw [dumpsStr] at hd
  rcases List.mem_cons.mp hd with rfl | hd2
  · exact ⟨by decide, by decide, by decide⟩
  rcases List.mem_append.mp hd2 with hd3 | hd4
  · obtain ⟨c, hc, hdc⟩ := List.mem_flatMap.mp hd3
    exact pyEscapeChar_safe (hs c hc) d hdc
  · have := List.mem_singleton.mp hd4
    subst this
    exact ⟨by decide, by decide, by decide⟩

theorem dumpsElems_strs_safe {ss : List (List Char)}
    (hs : ∀ s ∈ ss, ∀ c ∈ s, safeChar c = true) :
    ∀ d ∈ dumpsElems (ss.map PyJson.str), d ≠ '{' ∧ d ≠ '}' ∧ d ≠ btick := by
  induction ss with
  | nil => simp [dumpsElems]
  | cons x t ih =>
    cases t with
    | nil =>
      intro d hd
      simp only [List.map_cons, List.map_nil, dumpsElems, pyJsonDumps] at hd
      exact dumpsStr_safe (hs x (by simp)) d hd
    | cons y t' =>
      intro d hd
      simp only [List.map_cons, dumpsElems, pyJsonDumps] at hd
      rcases List.mem_append.mp hd with h | h
      · exact dumpsStr_safe (hs x (by simp)) d h
      rcases List.mem_cons.mp h with rfl | h
      · exact ⟨by decide, by decide, by decide⟩
      rcases List.mem_cons.mp h with rfl | h
      · exact ⟨by decide, by decide, by decide⟩
      exact ih (fun s hs' => hs s (by simp [hs'])) d h

theorem dumpsArr_strs_safe {ss : List (List Char)}
    (hs : ∀ s ∈ ss, ∀ c ∈ s, safeChar c = true) :
    ∀ d ∈ pyJsonDumps (PyJson.arr (ss.map PyJson.str)),
      d ≠ '{' ∧ d ≠ '}' ∧ d ≠ btick := by
  intro d hd
  simp only [pyJsonDumps] at hd
  rcases List.mem_cons.mp hd with rfl | h
  · exact ⟨by decide, by decide, by decide⟩
  rcases List.mem_append.mp h with h | h
  · exact dumpsElems_strs_safe hs d h
  · have := List.mem_singleton.mp h
    subst this
    exact ⟨by decide, by decide, by decide⟩

theorem dumpsMembersInner_safe {m : List (List Char × List (List Char))}
    (hm : safeMapping m) :
    ∀ d ∈ dumpsMembers (m.map fun p => (p.1, PyJson.arr (p.2.map PyJson.str))),
      d ≠ '{' ∧ d ≠ '}' ∧ d ≠ btick := by
  induction m with
  | nil => simp [dumpsMembers]
  | cons kv t ih =>
    obtain ⟨k, ss⟩ := kv
    have hk : ∀ c ∈ k, safeChar c = true := (hm (k, ss) (by simp)).1
    have hss : ∀ s ∈ ss, ∀ c ∈ s, safeChar c = true := (hm (k, ss) (by simp)).2
    cases t with
    | nil =>
      intro d hd
      simp only [List.map_cons, List.map_nil, dumpsMembers] at hd
      rcases List.mem_append.mp hd with h | h
      · exact dumpsStr_safe hk d h
      rcases List.mem_cons.mp h with rfl | h
      · exact ⟨by decide, by decide, by decide⟩
      rcases List.mem_cons.mp h with rfl | h
      · exact ⟨by decide, by decide, by decide⟩
      exact dumpsArr_strs_safe hss d h
    | cons q t' =>
      intro d hd
      simp only [List.map_cons, dumpsMembers] at hd
      rcases List.mem_append.mp hd with h | h
      · rcases List.mem_append.mp h with h | h
        · exact dumpsStr_safe hk d h
        rcases List.mem_cons.mp h with rfl | h
        · exact ⟨by decide, by decide, by decide⟩
        rcases List.mem_cons.mp h with rfl | h
        · exact ⟨by decide, by decide, by decide⟩
        exact dumpsArr_strs_safe hss d h
      · rcases List.mem_cons.mp h with rfl | h
        · exact ⟨by decide, by decide, by decide⟩
        rcases List.mem_cons.mp h with rfl | h
        · exact ⟨by decide, by decide, by decide⟩
        exact ih (fun p hp' => hm p (by simp [hp'])) d h

theorem tripleAt_eq_false {c : Char} (cs : List Char) (h : c ≠ btick) :
    tripleAt (c :: cs) = false := by
  cases cs with
  | nil => rfl
  | cons b t =>
    cases t with
    | nil => rfl
    | cons e u => simp [tripleAt, h]

theorem splitAtTriple_none {cs : List Char} (h : ∀ c ∈ cs, c ≠ btick) :
    splitAtTriple cs = none := by
  induction cs with
  | nil => rfl
  | cons c t ih =>
    simp only [splitAtTriple]
    rw [tripleAt_eq_false t (h c (by simp)), ih (fun d hd => h d (by simp [hd]))]
    simp

theorem fenceGroup_none {cs : List Char} (h : ∀ c ∈ cs, c ≠ btick) :
    fenceGroup cs = none := by
  unfold fenceGroup
  rw [splitAtTriple_none h]

theorem pyStrip_braced (xs : List Char) :
    pyStrip ('{' :: (xs ++ ['}'])) = '{' :: (xs ++ ['}']) := by
  unfold pyStrip
  rw [List.dropWhile_cons, if_neg (by decide)]
  have hrev : ('{' :: (xs ++ ['}'])).reverse = '}' :: (xs.reverse ++ ['{']) := by
    simp
  rw [hrev, List.dropWhile_cons, if_neg (by decide)]
  simp

theorem scanBalanced_chunk (seg : List Char) :
    ∀ pre rest depth, (∀ c ∈ seg, c ≠ '{' ∧ c ≠ '}') →
      scanBalanced '{' '}' pre (seg ++ rest) depth
        = scanBalanced '{' '}' (pre ++ seg) rest depth := by
  induction seg with
  | nil => intro pre rest depth _; simp
  | cons c t ih =>
    intro pre rest depth hseg
    obtain ⟨h1, h2⟩ := hseg c (by simp)
    rw [List.cons_append]
    simp only [scanBalanced]
    rw [if_neg (by simp [h1]), if_neg (by simp [h2])]
    rw [ih (pre ++ [c]) rest depth (fun d hd => hseg d (by simp [hd]))]
    simp

/-- The balanced-brace scan over a two-level object: the two brace-free
segments are crossed wholesale, the depth returns to zero exactly at the final
closing brace, and the whole slice is handed to `json.loads`. -/
theorem scanBalanced_nested (S1 S2 : List Char) (J : PyJson)
    (h1 : ∀ c ∈ S1, c ≠ '{' ∧ c ≠ '}') (h2 : ∀ c ∈ S2, c ≠ '{' ∧ c ≠ '}')
    (hl : jsonLoadsL ('{' :: (S1 ++ ('{' :: (S2 ++ ['}', '}'])))) = some J) :
    scanBalanced '{' '}' [] ('{' :: (S1 ++ ('{' :: (S2 ++ ['}', '}'])))) 0 = some J := by
  simp only [scanBalanced]
  rw [if_pos (show (('{' : Char) == '{') = true from rfl)]
  rw [scanBalanced_chunk _ _ _ _ h1]
  simp only [scanBalanced]
  rw [if_pos (show (('{' : Char) == '{') = true from rfl)]
  rw [scanBalanced_chunk _ _ _ _ h2]
  rw [show (['}', '}'] : List Char) = '}' :: ['}'] from rfl]
  simp only [scanBalanced]
  rw [if_neg (by decide : ¬((('}' : Char) == '{') = true)),
      if_pos (show (('}' : Char) == '}') = true from rfl),
      if_neg (by decide : ¬(((0 : Int) + 1 + 1 - 1 == 0) = true))]
  rw [if_pos (by decide : ((((0 : Int) + 1 + 1 - 1) - 1 == 0) = true))]
  rw [show ((((([] ++ ['{']) ++ S1) ++ ['{']) ++ S2) ++ ['}']) ++ ['}']
      = '{' :: (S1 ++ ('{' :: (S2 ++ ['}', '}']))) from by simp]
  rw [hl]
  simp

theorem responseParserL_dumpsExec (m : List (List Char × List (List Char)))
    (hm : safeMapping m) :
    responseParserL (pyJsonDumps (mkExecMapping m)) = some (mkExecMapping m) := by
  have hro : ∀ c ∈ "result".data, safeChar c = true := by decide
  have hp : ∀ p ∈ m, (∀ c ∈ p.1, 32 ≤ c.toNat ∧ c.toNat ≤ 126) ∧
      ∀ s ∈ p.2, ∀ c ∈ s, 32 ≤ c.toNat ∧ c.toNat ≤ 126 :=
    fun p hp' => ⟨fun c hc => safeChar_printable ((hm p hp').1 c hc),
      fun s hs c hc => safeChar_printable ((hm p hp').2 s hs c hc)⟩
  have hD : pyJsonDumps (mkExecMapping m)
      = '{' :: ((dumpsStr "result".data ++ [':', ' ']) ++
          ('{' :: (dumpsMembers (m.map fun p => (p.1, PyJson.arr (p.2.map PyJson.str)))
            ++ ['}', '}']))) := by
    simp [mkExecMapping, pyJsonDumps, dumpsMembers]
  have hseg1 : ∀ c ∈ dumpsStr "result".data ++ [':', ' '], c ≠ '{' ∧ c ≠ '}' := by
    intro c hc
    rcases List.mem_append.mp hc with hc | hc
    · exact ⟨(dumpsStr_safe hro c hc).1, (dumpsStr_safe hro c hc).2.1⟩
    · simp at hc
      rcases hc with rfl | rfl
      · exact ⟨by decide, by decide⟩
      · exact ⟨by decide, by decide⟩
  have hseg2 : ∀ c ∈ dumpsMembers (m.map fun p => (p.1, PyJson.arr (p.2.map PyJson.str))),
      c ≠ '{' ∧ c ≠ '}' := fun c hc =>
    ⟨(dumpsMembersInner_safe hm c hc).1, (dumpsMembersInner_safe hm c hc).2.1⟩
  have htick : ∀ c ∈ pyJsonDumps (mkExecMapping m), c ≠ btick := by
    rw [hD]
    intro c hc
    rcases List.mem_cons.mp hc with rfl | hc
    · decide
    rcases List.mem_append.mp hc with hc | hc
    · rcases List.mem_append.mp hc with hc | hc
      · exact (dumpsStr_safe hro c hc).2.2
      · simp at hc
        rcases hc with rfl | rfl <;> decide
    · rcases List.mem_cons.mp hc with rfl | hc
      · decide
      rcases List.mem_append.mp hc with hc | hc
      · exact (dumpsMembersInner_safe hm c hc).2.2
      · simp at hc
        rcases hc with rfl | rfl <;> decide
  have hne : (pyJsonDumps (mkExecMapping m)).isEmpty = false := by
    rw [hD]
    rfl
  have hstrip : pyStrip (pyJsonDumps (mkExecMapping m)) = pyJsonDumps (mkExecMapping m) := by
    have hD2 : pyJsonDumps (mkExecMapping m)
        = '{' :: (((dumpsStr "result".data ++ [':', ' ']) ++
            ('{' :: (dumpsMembers (m.map fun p => (p.1, PyJson.arr (p.2.map PyJson.str)))
              ++ ['}']))) ++ ['}']) := by
      simp [mkExecMapping, pyJsonDumps, dumpsMembers]
    rw [hD2, pyStrip_braced]
  have hload : jsonLoadsL (pyJsonDumps (mkExecMapping m)) = some (mkExecMapping m) :=
    jsonLoadsL_dumpsExec m hp
  have hscan : scanBalanced '{' '}' [] (pyJsonDumps (mkExecMapping m)) 0
      = some (mkExecMapping m) := by
    conv_lhs => rw [hD]
    exact scanBalanced_nested _ _ _ hseg1 hseg2 (by rw [← hD]; exact hload)
  unfold responseParserL
  rw [if_neg (by simp [hne, hstrip])]
  rw [fenceGroup_none htick]
  dsimp only
  unfold responseParserStage23 tryBracket
  have hsf : ∀ X : List Char, suffixFrom '{' ('{' :: X) = some ('{' :: X) := by
    intro X
    simp [suffixFrom]
  rw [hD, hsf, ← hD]
  dsimp only
  rw [hscan]

set_option maxRecDepth 16000 in
/-- C8: counterexample. The executor-accepted mapping
`{"result": {"public_remarks": ["}"]}}` — one violation string consisting of
a closing brace — does not round-trip: the balanced-bracket stage cuts the
serialisation at the brace inside the string, the `{`-scan never parses, and
the `[`-scan yields the inner list `["}"]` instead of the mapping. -/
theorem C8_counterexample :
    responseParserL (pyJsonDumps exBraceMapping) = some (.arr [.str ['}']]) ∧
    PyJson.arr [.str ['}']] ≠ exBraceMapping :=
  ⟨rfl, fun h => PyJson.noConfusion h⟩

/-- C8 (amended): for every mapping of the executor-accepted shape whose keys
and violation strings stay within printable ASCII and avoid braces, square
brackets and backticks — the characters the parser's extraction stages react
to — parsing the `json.dumps` serialisation with `response_parser` returns
the mapping itself. (Quotes and backslashes are fine: `dumps` escapes them.
A brace inside a string breaks the property, see the counterexample.) -/
theorem C8_amended (m : List (List Char × List (List Char))) (hm : safeMapping m) :
    responseParser (String.mk (pyJsonDumps (mkExecMapping m))) = some (mkExecMapping m) :=
  responseParserL_dumpsExec m hm

set_option maxRecDepth 16000 in
theorem C8_amended_witness :
    safeMapping exSafeMapping ∧
    responseParser (String.mk (pyJsonDumps (mkExecMapping exSafeMapping)))
      = some (mkExecMapping exSafeMapping) :=
  ⟨by unfold safeMapping; decide, C8_amended exSafeMapping (by unfold safeMapping; decide)⟩

end AiCompliance
